import Mathlib

/-!
Verification development for the lifetime name-resolution pass of
src/src/librustc/middle/resolve_lifetime.rs.

The embedding is shallow: each Rust item is translated to a Lean
definition of the same name where possible.  Machine integers (u32
counters, de Bruijn depths, node ids, interned names) are modelled as
Nat; none of the modelled arithmetic can overflow in scope of the
statements proved here.  Hash maps (NodeMap, FxHashMap) are modelled as
association lists whose insert replaces an existing binding, which is
the observable behaviour of HashMap::insert followed by get.  Spans are
identified with the node id of the syntax that carries them.  The
mutable Cell counters inside Elide::FreshLateAnon are modelled by a
store of cells inside the traversal state, so that Cell::clone (copying
the current value into a fresh cell) and Cell::set are both faithful.
Interned names (ast::Name, u32 indices into the interner) are Nat; the
reserved indices below stand for the keyword names used by the pass.
-/

set_option maxHeartbeats 1600000

abbrev Name := Nat
abbrev NodeId := Nat

/-- The name held by an elided lifetime in HIR (keywords::Invalid). -/
def invalidName : Name := 0

/-- The reserved static lifetime name (keywords::StaticLifetime). -/
def staticLifetimeName : Name := 1

/-- hir::Lifetime: one lifetime occurrence, with its node id and interned name.
The span of the occurrence is identified with its node id. -/
structure Lifetime where
  id : NodeId
  name : Name
deriving DecidableEq, Repr

/-- hir::Lifetime::is_elided: the occurrence was not written in the source. -/
def Lifetime.is_elided (l : Lifetime) : Bool := l.name = invalidName

/-- hir::LifetimeDef: a declared lifetime parameter with its bounds. -/
structure LifetimeDef where
  lifetime : Lifetime
  bounds : List Lifetime
deriving DecidableEq, Repr

/-- Region: the resolved binding of one lifetime occurrence.
Free carries region::CallSiteScopeData (fn id and body id) plus the decl id. -/
inductive Region where
  | Static : Region
  | EarlyBound (index : Nat) (declId : NodeId) : Region
  | LateBound (depth : Nat) (declId : NodeId) : Region
  | LateBoundAnon (depth : Nat) (anonIndex : Nat) : Region
  | Free (fnId : Nat) (bodyId : Nat) (declId : NodeId) : Region
deriving DecidableEq, Repr

/-- Region::early: allocate the next early-bound index for a declaration.
Returns the (name, region) pair together with the incremented index. -/
def Region.early (index : Nat) (d : LifetimeDef) : (Name × Region) × Nat :=
  ((d.lifetime.name, Region.EarlyBound index d.lifetime.id), index + 1)

/-- Region::late: a late-bound declaration starts at de Bruijn depth 1. -/
def Region.late (d : LifetimeDef) : Name × Region :=
  (d.lifetime.name, Region.LateBound 1 d.lifetime.id)

/-- Region::late_anon: read the counter, then increment it. -/
def Region.late_anon (counter : Nat) : Region × Nat :=
  (Region.LateBoundAnon 1 counter, counter + 1)

/-- Region::id: the node id of the declaration a region refers to, if any. -/
def Region.id? : Region → Option NodeId
  | Region.Static => none
  | Region.LateBoundAnon _ _ => none
  | Region.EarlyBound _ i => some i
  | Region.LateBound _ i => some i
  | Region.Free _ _ i => some i

/-- Region::shifted: add to the de Bruijn depth of the late variants. -/
def Region.shifted : Region → Nat → Region
  | Region.LateBound depth i, amount => Region.LateBound (depth + amount) i
  | Region.LateBoundAnon depth idx, amount => Region.LateBoundAnon (depth + amount) idx
  | r, _ => r

/-- Region::from_depth: normalize a region observed at the given binder depth
back to depth 1 (u32 subtraction; in the pass the observed depth is never
below the normalization depth at the insertion sites). -/
def Region.from_depth : Region → Nat → Region
  | Region.LateBound debruijn i, depth => Region.LateBound (debruijn - (depth - 1)) i
  | Region.LateBoundAnon debruijn idx, depth => Region.LateBoundAnon (debruijn - (depth - 1)) idx
  | r, _ => r

/-- HashMap::insert modelled on association lists: replace an existing
binding for the key in place, else append. -/
def mapInsert {α β : Type} [DecidableEq α] : List (α × β) → α → β → List (α × β)
  | [], k, v => [(k, v)]
  | (k', v') :: rest, k, v =>
      if k' = k then (k, v) :: rest else (k', v') :: mapInsert rest k v

/-- HashMap::get modelled on association lists. -/
def mapGet {α β : Type} [DecidableEq α] : List (α × β) → α → Option β
  | [], _ => none
  | (k', v) :: rest, k => if k' = k then some v else mapGet rest k

/-- A Binder scope's name table: FxHashMap of interned name to Region. -/
abbrev NameTable := List (Name × Region)

/-- ty::Issue32330: the migration-warning marker stored with a late-bound
declaration (see insert_late_bound_lifetimes). -/
inductive Issue32330 where
  | WillChange (fnDefId : Nat) (regionName : Name)
  | WontChange
deriving DecidableEq, Repr

/-- ElisionFailureInfo: one record per argument of a failed output elision. -/
structure ElisionFailureInfo where
  parent : Option Nat
  index : Nat
  lifetimeCount : Nat
  haveBoundRegions : Bool
deriving DecidableEq, Repr

inductive ShadowKind where
  | Label
  | Lifetime
deriving DecidableEq, Repr

structure Original where
  kind : ShadowKind
  span : Nat
deriving DecidableEq, Repr

structure Shadower where
  kind : ShadowKind
  span : Nat
deriving DecidableEq, Repr

def original_label (span : Nat) : Original := { kind := ShadowKind.Label, span := span }

def shadower_label (span : Nat) : Shadower := { kind := ShadowKind.Label, span := span }

def original_lifetime (span : Nat) : Original := { kind := ShadowKind.Lifetime, span := span }

def shadower_lifetime (l : Lifetime) : Shadower := { kind := ShadowKind.Lifetime, span := l.id }

/-- The two span_label annotations attached by signal_shadowing_problem. -/
inductive DiagLabel where
  | firstDeclaredHere (span : Nat)
  | alreadyInScope (span : Nat) (name : Name)
deriving DecidableEq, Repr

/-- The diagnostic built by signal_shadowing_problem; isError true means the
struct_span_err E0496 path, false means the struct_span_warn path. -/
structure ShadowDiag where
  isError : Bool
  code : Option Nat
  name : Name
  origKind : ShadowKind
  shadowerKind : ShadowKind
  primarySpan : Nat
  labels : List DiagLabel
deriving DecidableEq, Repr

/-- signal_shadowing_problem: lifetime/lifetime shadowing is a hard error
(E0496); any combination involving a label is only a warning.  Both sites
are labelled before the diagnostic is emitted. -/
def signal_shadowing_problem (name : Name) (orig : Original) (shadower : Shadower) : ShadowDiag :=
  let isErr :=
    match orig.kind, shadower.kind with
    | ShadowKind.Lifetime, ShadowKind.Lifetime => true
    | _, _ => false
  { isError := isErr
    code := if isErr then some 496 else none
    name := name
    origKind := orig.kind
    shadowerKind := shadower.kind
    primarySpan := shadower.span
    labels := [DiagLabel.firstDeclaredHere orig.span,
               DiagLabel.alreadyInScope shadower.span name] }

/-- The diagnostics the pass can emit.  Spans are node ids.  E0106 carries
the plural flag of the message and, when an Elide::Error scope supplied
them for a single missing lifetime, the per-argument failure records
rendered by report_elision_failure. -/
inductive Diag where
  | E0106 (span : Nat) (multiple : Bool) (help : Option (List ElisionFailureInfo))
  | E0261 (span : Nat) (name : Name)
  | E0262 (span : Nat) (name : Name)
  | E0263 (span : Nat) (name : Name)
  | E0316
  | StaticInConst (span : Nat)
  | Shadow (d : ShadowDiag)
deriving DecidableEq, Repr

/-- Elide: how an elision scope resolves unspecified lifetimes.  The
FreshLateAnon counter Cell is represented by an index into the cell store
of the traversal state. -/
inductive Elide where
  | FreshLateAnon (cell : Nat)
  | Exact (r : Region)
  | Static
  | Error (records : List ElisionFailureInfo)
deriving DecidableEq, Repr

/-- Scope: the immutable scope chain, leaf first. -/
inductive Scope where
  | Binder (lifetimes : NameTable) (s : Scope)
  | Body (id : Nat) (s : Scope)
  | Elision (elide : Elide) (s : Scope)
  | Root
deriving Repr

/-- The mutable traversal state: the NamedRegionMap under construction
(defs and late_bound), the diagnostics emitted so far (in order), and the
store backing the FreshLateAnon counter cells. -/
structure St where
  defs : List (NodeId × Region)
  lateBound : List (NodeId × Issue32330)
  diags : List Diag
  cells : List Nat
deriving DecidableEq, Repr

def emptySt : St := { defs := [], lateBound := [], diags := [], cells := [] }

/-- Cell::new: allocate a fresh counter cell holding v; returns its index. -/
def St.newCell (st : St) (v : Nat) : Nat × St :=
  (st.cells.length, { st with cells := st.cells ++ [v] })

/-- Cell::get. -/
def St.getCell (st : St) (c : Nat) : Nat := st.cells.getD c 0

/-- Cell::set. -/
def St.setCell (st : St) (c : Nat) (v : Nat) : St :=
  { st with cells := st.cells.set c v }

def emitDiag (st : St) (d : Diag) : St := { st with diags := st.diags ++ [d] }

/-- The collaborators the pass consults through the HIR map and session:
body_owner resolves a body id to the id of the item that owns it;
fnLikeOwner models the match in resolve_lifetime_ref that tests whether
hir_map.get on that owner yields an ItemFn, a trait Method or an impl
Method; staticInConst is the feature gate queried by Elide::Static. -/
structure HirEnv where
  bodyOwner : Nat → Nat
  fnLikeOwner : Nat → Bool
  staticInConst : Bool

/-- insert_lifetime: record the resolution of one lifetime use in defs.
(The span_bug guard for an unrenumbered DUMMY_NODE_ID aborts the compiler
and is not modelled; every id used here is a real node id.) -/
def insert_lifetime (st : St) (ref : Lifetime) (d : Region) : St :=
  { st with defs := mapInsert st.defs ref.id d }

/-- The scope walk of resolve_lifetime_ref: leaf to root, counting each
Binder passed over that lacks the name, remembering the outermost Body
passed, skipping Elision scopes, shifting the found region by the count. -/
def resolveRefWalk : Scope → Name → Nat → Option Nat → Option Region × Option Nat
  | Scope.Body i s, n, lateDepth, _ => resolveRefWalk s n lateDepth (some i)
  | Scope.Root, _, _, ob => (none, ob)
  | Scope.Binder t s, n, lateDepth, ob =>
      match mapGet t n with
      | some r => (some (r.shifted lateDepth), ob)
      | none => resolveRefWalk s n (lateDepth + 1) ob
  | Scope.Elision _ s, n, lateDepth, ob => resolveRefWalk s n lateDepth ob

/-- The body of the if-let of resolve_lifetime_ref: when an outermost
body was passed during lookup and its owner is a fn item or a trait/impl
method, the found region is rewritten to Free(call-site scope, decl id).
Region::id().unwrap() is modelled with getD 0; the regions stored in
Binder tables always carry a declaration id. -/
def promoteFree (env : HirEnv) (ob : Option Nat) (r : Region) : Region :=
  match ob with
  | some bodyId =>
      if env.fnLikeOwner (env.bodyOwner bodyId) then
        Region.Free (env.bodyOwner bodyId) bodyId ((Region.id? r).getD 0)
      else r
  | none => r

/-- resolve_lifetime_ref: look the name up along the scope chain; a found
region is stored (promoted to Free where promoteFree says so); a name
that is nowhere declared is reported as E0261. -/
def resolve_lifetime_ref (env : HirEnv) (scope : Scope) (ref : Lifetime) (st : St) : St :=
  match resolveRefWalk scope ref.name 0 none with
  | (some r, ob) => insert_lifetime st ref (promoteFree env ob r)
  | (none, _) => emitDiag st (Diag.E0261 ref.id ref.name)

/-- The Elide::FreshLateAnon arm of resolve_elided_lifetimes: each ref in
turn gets Region::late_anon(counter).shifted(late_depth). -/
def elideFreshLoop (cell : Nat) (lateDepth : Nat) : List Lifetime → St → St
  | [], st => st
  | r :: rest, st =>
      let i := st.getCell cell
      let st := st.setCell cell (i + 1)
      let st := insert_lifetime st r ((Region.LateBoundAnon 1 i).shifted lateDepth)
      elideFreshLoop cell lateDepth rest st

/-- The scope walk of resolve_elided_lifetimes: a Body returns silently
(left for type inference); Root and Elide::Error report E0106 (with the
failure records as help when exactly one lifetime is missing); a Binder
increments the late depth; the other Elide policies assign regions. -/
def resolveElidedWalk (env : HirEnv) (refs : List Lifetime) (span : Nat) :
    Scope → Nat → St → St
  | Scope.Body _ _, _, st => st
  | Scope.Root, _, st => emitDiag st (Diag.E0106 span (decide (refs.length > 1)) none)
  | Scope.Binder _ s, lateDepth, st => resolveElidedWalk env refs span s (lateDepth + 1) st
  | Scope.Elision e _, lateDepth, st =>
      match e with
      | Elide.FreshLateAnon cell => elideFreshLoop cell lateDepth refs st
      | Elide.Exact l =>
          refs.foldl (fun st r => insert_lifetime st r (l.shifted lateDepth)) st
      | Elide.Static =>
          let st := if env.staticInConst then st else emitDiag st (Diag.StaticInConst span)
          refs.foldl (fun st r => insert_lifetime st r Region.Static) st
      | Elide.Error e =>
          emitDiag st (Diag.E0106 span (decide (refs.length > 1))
            (if refs.length = 1 then some e else none))

/-- resolve_elided_lifetimes: resolve a group of elided lifetime uses (the
span of the diagnostic is that of the first ref). -/
def resolve_elided_lifetimes (env : HirEnv) (scope : Scope) (refs : List Lifetime) (st : St) : St :=
  match refs with
  | [] => st
  | r :: _ => resolveElidedWalk env refs r.id scope 0 st

/-- visit_lifetime: the entry point for every lifetime occurrence the
visitor reaches: elided occurrences go to elision resolution, the static
keyword binds to Region::Static, everything else is looked up by name. -/
def visit_lifetime (env : HirEnv) (scope : Scope) (ref : Lifetime) (st : St) : St :=
  if ref.is_elided then resolve_elided_lifetimes env scope [ref] st
  else if ref.name = staticLifetimeName then insert_lifetime st ref Region.Static
  else resolve_lifetime_ref env scope ref st

/-- check_lifetime_def_for_shadowing: a new declaration is first compared
against the loop labels of the enclosing function, then against every
Binder of the old scope chain; the first hit is reported through
signal_shadowing_problem and the walk stops.  The span of the original
declaration (hir_map.span of its id) is the id itself here. -/
def check_lifetime_def_for_shadowing (env : HirEnv) (labels : List (Name × Nat)) :
    Scope → Lifetime → St → St :=
  fun oldScope l st =>
    match labels.find? (fun p => p.1 = l.name) with
    | some p =>
        emitDiag st (Diag.Shadow (signal_shadowing_problem l.name
          (original_label p.2) (shadower_lifetime l)))
    | none => shadowScopeWalk env oldScope l st
where
  shadowScopeWalk (env : HirEnv) : Scope → Lifetime → St → St
    | Scope.Body _ s, l, st => shadowScopeWalk env s l st
    | Scope.Elision _ s, l, st => shadowScopeWalk env s l st
    | Scope.Root, _, st => st
    | Scope.Binder t s, l, st =>
        match mapGet t l.name with
        | some d =>
            emitDiag st (Diag.Shadow (signal_shadowing_problem l.name
              (original_lifetime ((Region.id? d).getD 0)) (shadower_lifetime l)))
        | none => shadowScopeWalk env s l st

/-- The body of the loop of check_lifetime_defs for one declaration: the
(quadratic) reserved-name check over the whole list, the duplicate check
against the later declarations, the shadowing check against the outer
scope, and the resolution of the declaration's bounds against the current
scope (note: resolve_lifetime_ref directly, not visit_lifetime). -/
def check_lifetime_defs_step (env : HirEnv) (labels : List (Name × Nat))
    (oldScope curScope : Scope) (all : List LifetimeDef)
    (li : LifetimeDef) (later : List LifetimeDef) (st : St) : St :=
  let st := all.foldl (fun st l =>
    if l.lifetime.name = staticLifetimeName then
      emitDiag st (Diag.E0262 l.lifetime.id l.lifetime.name)
    else st) st
  let st := later.foldl (fun st lj =>
    if li.lifetime.name = lj.lifetime.name then
      emitDiag st (Diag.E0263 lj.lifetime.id lj.lifetime.name)
    else st) st
  let st := check_lifetime_def_for_shadowing env labels oldScope li.lifetime st
  li.bounds.foldl (fun st b => resolve_lifetime_ref env curScope b st) st

def check_lifetime_defs_go (env : HirEnv) (labels : List (Name × Nat))
    (oldScope curScope : Scope) (all : List LifetimeDef) :
    List LifetimeDef → St → St
  | [], st => st
  | li :: later, st =>
      check_lifetime_defs_go env labels oldScope curScope all later
        (check_lifetime_defs_step env labels oldScope curScope all li later st)

/-- check_lifetime_defs: validate the declarations of a new Binder against
each other (reserved name, duplicates), against the outer scope
(shadowing) and resolve their bounds in the new scope. -/
def check_lifetime_defs (env : HirEnv) (labels : List (Name × Nat))
    (oldScope curScope : Scope) (lifetimes : List LifetimeDef) (st : St) : St :=
  check_lifetime_defs_go env labels oldScope curScope lifetimes lifetimes st

/-- Characterization used by the C2 theorems: the walk that
resolve_elided_lifetimes performs reaches a Body before any Elision scope
(the silently-deferred case). -/
def elidedStopsAtBody : Scope → Bool
  | Scope.Body _ _ => true
  | Scope.Root => false
  | Scope.Binder _ s => elidedStopsAtBody s
  | Scope.Elision _ _ => false

/-- hir::def::Def, restricted to what is_self_ty inspects. -/
inductive Def where
  | SelfTy
  | Struct (id : Nat)
  | Union (id : Nat)
  | Enum (id : Nat)
  | PrimTy (p : Nat)
  | OtherDef
deriving DecidableEq, Repr

/-!
The fragment of hir types the pass inspects.  TyPath is split by the
shape of its qualified path: PathNone is QPath::Resolved(None, path)
(with the path's Def kept for is_self_ty), PathQSelf is
QPath::Resolved(Some(qself), path), PathTypeRel is QPath::TypeRelative.
A bare fn type carries its FnDecl inline (inputs and optional return
type; FunctionRetTy::DefaultReturn is none).  Prim stands for any leaf
type without lifetimes.  Path segments carry their angle-bracketed
parameters (lifetimes, types, bindings); parenthesized path parameters
are not modelled.  A poly trait ref is its for-bound lifetimes plus the
trait path.
-/
mutual
inductive Ty where
  | Rptr (lifetime : Lifetime) (ty : Ty)
  | BareFn (lifetimes : List LifetimeDef) (inputs : List Ty) (output : Option Ty)
  | Tup (tys : List Ty)
  | PathNone (d : Def) (segments : List PathSegment)
  | PathQSelf (qself : Ty) (segments : List PathSegment)
  | PathTypeRel (base : Ty) (segment : PathSegment)
  | TraitObject (bounds : List PolyTraitRef) (lifetime : Lifetime)
  | ImplTrait (bounds : List TyParamBound)
  | Prim

inductive PathSegment where
  | mk (lifetimes : List Lifetime) (types : List Ty) (bindings : List Ty)

inductive PolyTraitRef where
  | mk (boundLifetimes : List LifetimeDef) (traitDef : Def) (segments : List PathSegment)

inductive TyParamBound where
  | TraitTyParamBound (p : PolyTraitRef)
  | RegionTyParamBound (l : Lifetime)
end

/-- hir::FnDecl. -/
structure FnDecl where
  inputs : List Ty
  output : Option Ty

/-- hir::TyParam (the part insert_late_bound_lifetimes walks). -/
structure TyParam where
  bounds : List TyParamBound

/-- hir::WherePredicate. -/
inductive WherePredicate where
  | BoundPredicate (boundLifetimes : List LifetimeDef) (boundedTy : Ty)
      (bounds : List TyParamBound)
  | RegionPredicate (lifetime : Lifetime) (bounds : List Lifetime)
  | EqPredicate (lhs rhs : Ty)

/-- hir::Generics. -/
structure Generics where
  lifetimes : List LifetimeDef
  tyParams : List TyParam
  wherePredicates : List WherePredicate

/-!
ConstrainedCollector: collects the names of lifetimes *constrained* by a
type.  Its visit_ty skips associated-type projections entirely
(QPath::Resolved with a qualified self, QPath::TypeRelative) and, for a
plain path, descends only into the final segment; everything else uses
the default walk (which also collects the declared lifetimes and bounds
of nested bare-fn binders and for-bounds, via the default
visit_lifetime_def).  The set is a name list used only through contains.
-/
mutual
def constrainedTy (acc : List Name) : Ty → List Name
  | Ty.Rptr l t => constrainedTy (acc ++ [l.name]) t
  | Ty.BareFn lds ins out =>
      constrainedOptTy (constrainedTys (constrainedLifetimeDefs acc lds) ins) out
  | Ty.Tup ts => constrainedTys acc ts
  | Ty.PathNone _ segs => constrainedLastSeg acc segs
  | Ty.PathQSelf _ _ => acc
  | Ty.PathTypeRel _ _ => acc
  | Ty.TraitObject bs l => constrainedPtrs acc bs ++ [l.name]
  | Ty.ImplTrait bs => constrainedBounds acc bs
  | Ty.Prim => acc

def constrainedTys (acc : List Name) : List Ty → List Name
  | [] => acc
  | t :: ts => constrainedTys (constrainedTy acc t) ts

def constrainedOptTy (acc : List Name) : Option Ty → List Name
  | none => acc
  | some t => constrainedTy acc t

def constrainedSeg (acc : List Name) : PathSegment → List Name
  | PathSegment.mk ls ts bs =>
      constrainedTys (constrainedTys (acc ++ ls.map (fun l => l.name)) ts) bs

def constrainedLastSeg (acc : List Name) : List PathSegment → List Name
  | [] => acc
  | [s] => constrainedSeg acc s
  | _ :: s :: ss => constrainedLastSeg acc (s :: ss)

def constrainedSegs (acc : List Name) : List PathSegment → List Name
  | [] => acc
  | s :: ss => constrainedSegs (constrainedSeg acc s) ss

def constrainedPtr (acc : List Name) : PolyTraitRef → List Name
  | PolyTraitRef.mk lds _ segs => constrainedSegs (constrainedLifetimeDefs acc lds) segs

def constrainedPtrs (acc : List Name) : List PolyTraitRef → List Name
  | [] => acc
  | p :: ps => constrainedPtrs (constrainedPtr acc p) ps

def constrainedBounds (acc : List Name) : List TyParamBound → List Name
  | [] => acc
  | TyParamBound.TraitTyParamBound p :: bs => constrainedBounds (constrainedPtr acc p) bs
  | TyParamBound.RegionTyParamBound l :: bs => constrainedBounds (acc ++ [l.name]) bs

def constrainedLifetimeDefs (acc : List Name) : List LifetimeDef → List Name
  | [] => acc
  | d :: ds =>
      constrainedLifetimeDefs (acc ++ [d.lifetime.name] ++ d.bounds.map (fun l => l.name)) ds
end

/-- AllCollector output: every lifetime name seen, plus whether a
TyImplTrait type was seen. -/
structure AllOut where
  regions : List Name
  implTrait : Bool
deriving DecidableEq, Repr

def emptyAllOut : AllOut := { regions := [], implTrait := false }

def AllOut.push (a : AllOut) (n : Name) : AllOut := { a with regions := a.regions ++ [n] }

/-!
AllCollector: scrapes up every lifetime name with the default walk
(ignoring binders), and flags any impl Trait type on the way.
-/
mutual
def allTy (acc : AllOut) : Ty → AllOut
  | Ty.Rptr l t => allTy (acc.push l.name) t
  | Ty.BareFn lds ins out => allOptTy (allTys (allLifetimeDefs acc lds) ins) out
  | Ty.Tup ts => allTys acc ts
  | Ty.PathNone _ segs => allSegs acc segs
  | Ty.PathQSelf q segs => allSegs (allTy acc q) segs
  | Ty.PathTypeRel b seg => allSeg (allTy acc b) seg
  | Ty.TraitObject bs l => (allPtrs acc bs).push l.name
  | Ty.ImplTrait bs => allBounds { acc with implTrait := true } bs
  | Ty.Prim => acc

def allTys (acc : AllOut) : List Ty → AllOut
  | [] => acc
  | t :: ts => allTys (allTy acc t) ts

def allOptTy (acc : AllOut) : Option Ty → AllOut
  | none => acc
  | some t => allTy acc t

def allSeg (acc : AllOut) : PathSegment → AllOut
  | PathSegment.mk ls ts bs =>
      allTys (allTys { acc with regions := acc.regions ++ ls.map (fun l => l.name) } ts) bs

def allSegs (acc : AllOut) : List PathSegment → AllOut
  | [] => acc
  | s :: ss => allSegs (allSeg acc s) ss

def allPtr (acc : AllOut) : PolyTraitRef → AllOut
  | PolyTraitRef.mk lds _ segs => allSegs (allLifetimeDefs acc lds) segs

def allPtrs (acc : AllOut) : List PolyTraitRef → AllOut
  | [] => acc
  | p :: ps => allPtrs (allPtr acc p) ps

def allBounds (acc : AllOut) : List TyParamBound → AllOut
  | [] => acc
  | TyParamBound.TraitTyParamBound p :: bs => allBounds (allPtr acc p) bs
  | TyParamBound.RegionTyParamBound l :: bs => allBounds (acc.push l.name) bs

def allLifetimeDefs (acc : AllOut) : List LifetimeDef → AllOut
  | [] => acc
  | d :: ds =>
      allLifetimeDefs
        { acc with regions := acc.regions ++ [d.lifetime.name] ++ d.bounds.map (fun l => l.name) }
        ds
end

/-- AllCollector over one where-clause predicate (default
walk_where_predicate). -/
def allWherePredicate (acc : AllOut) : WherePredicate → AllOut
  | WherePredicate.BoundPredicate lds t bs => allLifetimeDefs (allBounds (allTy acc t) bs) lds
  | WherePredicate.RegionPredicate l bs =>
      { (acc.push l.name) with
        regions := (acc.push l.name).regions ++ bs.map (fun b => b.name) }
  | WherePredicate.EqPredicate a b => allTy (allTy acc a) b

def allWherePredicates (acc : AllOut) : List WherePredicate → AllOut
  | [] => acc
  | p :: ps => allWherePredicates (allWherePredicate acc p) ps

def allTyParams (acc : AllOut) : List TyParam → AllOut
  | [] => acc
  | p :: ps => allTyParams (allBounds acc p.bounds) ps

/-- The constrained_by_input set of insert_late_bound_lifetimes:
ConstrainedCollector run over the argument types. -/
def lateBoundConstrained (decl : FnDecl) : List Name := constrainedTys [] decl.inputs

/-- The appears_in_output collector of insert_late_bound_lifetimes:
AllCollector run over the return type (walk_fn_ret_ty). -/
def lateBoundOutput (decl : FnDecl) : AllOut := allOptTy emptyAllOut decl.output

/-- The appears_in_where_clause collector of insert_late_bound_lifetimes:
AllCollector over the type-parameter bounds, the where-clause predicates,
and every lifetime declaration that itself carries bounds. -/
def lateBoundWhere (generics : Generics) : AllOut :=
  generics.lifetimes.foldl
    (fun acc d => if d.bounds = [] then acc else allLifetimeDefs acc [d])
    (allWherePredicates (allTyParams emptyAllOut generics.tyParams) generics.wherePredicates)

/-- The per-declaration step of insert_late_bound_lifetimes: skip (stay
early-bound) when the name appears in a where-clause or the return type
holds impl Trait; otherwise record the declaration, marked WillChange
exactly when it is unconstrained by the inputs but appears in the return
type. -/
def lateBoundStep (fnDefId : Nat) (constrainedByInput : List Name)
    (appearsInOutput appearsInWhereClause : AllOut)
    (m : List (NodeId × Issue32330)) (lifetime : LifetimeDef) : List (NodeId × Issue32330) :=
  if appearsInWhereClause.regions.contains lifetime.lifetime.name then m
  else if appearsInOutput.implTrait then m
  else
    let constrained := constrainedByInput.contains lifetime.lifetime.name
    let appears := appearsInOutput.regions.contains lifetime.lifetime.name
    mapInsert m lifetime.lifetime.id
      (if !constrained && appears then Issue32330.WillChange fnDefId lifetime.lifetime.name
       else Issue32330.WontChange)

/-- insert_late_bound_lifetimes: a declaration is recorded in late_bound
when its name appears in no where-clause and the return type holds no
impl Trait; the constrained-by-input condition only selects the
Issue32330 marker.  The assert that an id is not visited twice is not
modelled; the ids of a declaration list are distinct in HIR. -/
def insert_late_bound_lifetimes (fnDefId : Nat) (decl : FnDecl) (generics : Generics)
    (lateBound : List (NodeId × Issue32330)) : List (NodeId × Issue32330) :=
  generics.lifetimes.foldl
    (lateBoundStep fnDefId (lateBoundConstrained decl) (lateBoundOutput decl)
      (lateBoundWhere generics))
    lateBound

/-- GatherLifetimes state: the set (insertion-ordered, duplicate-free) of
non-captured lifetimes of one argument, plus the flag set when a region
captured by an inner binder was seen. -/
structure Gather where
  haveBoundRegions : Bool
  lifetimes : List Region
deriving DecidableEq, Repr

def emptyGather : Gather := { haveBoundRegions := false, lifetimes := [] }

/-- FxHashSet::insert. -/
def Gather.insertSet (g : Gather) (r : Region) : Gather :=
  if r ∈ g.lifetimes then g else { g with lifetimes := g.lifetimes ++ [r] }

/-- GatherLifetimes::visit_lifetime: look the occurrence up in defs; a late
region whose depth lies below the current binder depth is captured (flag
only); everything else is normalized via from_depth and inserted. -/
def gatherLifetime (defsMap : List (NodeId × Region)) (depth : Nat) (g : Gather)
    (l : Lifetime) : Gather :=
  match mapGet defsMap l.id with
  | some r =>
      match r with
      | Region.LateBound d _ =>
          if d < depth then { g with haveBoundRegions := true }
          else g.insertSet (r.from_depth depth)
      | Region.LateBoundAnon d _ =>
          if d < depth then { g with haveBoundRegions := true }
          else g.insertSet (r.from_depth depth)
      | _ => g.insertSet (r.from_depth depth)
  | none => g

/-- GatherLifetimes::visit_lifetime_def: only the bounds are visited (the
declared lifetime itself is skipped). -/
def gatherLifetimeDefs (defsMap : List (NodeId × Region)) (depth : Nat)
    (g : Gather) : List LifetimeDef → Gather
  | [] => g
  | d :: ds =>
      gatherLifetimeDefs defsMap depth
        (d.bounds.foldl (fun g l => gatherLifetime defsMap depth g l) g) ds

/-!
GatherLifetimes over types: binder depth is incremented around bare fn
types and poly trait refs; everything else is the default walk.
-/
mutual
def gatherTy (defsMap : List (NodeId × Region)) (depth : Nat) (g : Gather) : Ty → Gather
  | Ty.Rptr l t => gatherTy defsMap depth (gatherLifetime defsMap depth g l) t
  | Ty.BareFn lds ins out =>
      gatherOptTy defsMap (depth + 1)
        (gatherTys defsMap (depth + 1) (gatherLifetimeDefs defsMap (depth + 1) g lds) ins) out
  | Ty.Tup ts => gatherTys defsMap depth g ts
  | Ty.PathNone _ segs => gatherSegs defsMap depth g segs
  | Ty.PathQSelf q segs => gatherSegs defsMap depth (gatherTy defsMap depth g q) segs
  | Ty.PathTypeRel b seg => gatherSeg defsMap depth (gatherTy defsMap depth g b) seg
  | Ty.TraitObject bs l => gatherLifetime defsMap depth (gatherPtrs defsMap depth g bs) l
  | Ty.ImplTrait bs => gatherBounds defsMap depth g bs
  | Ty.Prim => g

def gatherTys (defsMap : List (NodeId × Region)) (depth : Nat) (g : Gather) : List Ty → Gather
  | [] => g
  | t :: ts => gatherTys defsMap depth (gatherTy defsMap depth g t) ts

def gatherOptTy (defsMap : List (NodeId × Region)) (depth : Nat) (g : Gather) :
    Option Ty → Gather
  | none => g
  | some t => gatherTy defsMap depth g t

def gatherSeg (defsMap : List (NodeId × Region)) (depth : Nat) (g : Gather) :
    PathSegment → Gather
  | PathSegment.mk ls ts bs =>
      gatherTys defsMap depth
        (gatherTys defsMap depth
          (ls.foldl (fun g l => gatherLifetime defsMap depth g l) g) ts) bs

def gatherSegs (defsMap : List (NodeId × Region)) (depth : Nat) (g : Gather) :
    List PathSegment → Gather
  | [] => g
  | s :: ss => gatherSegs defsMap depth (gatherSeg defsMap depth g s) ss

def gatherPtr (defsMap : List (NodeId × Region)) (depth : Nat) (g : Gather) :
    PolyTraitRef → Gather
  | PolyTraitRef.mk lds _ segs =>
      gatherSegs defsMap (depth + 1) (gatherLifetimeDefs defsMap (depth + 1) g lds) segs

def gatherPtrs (defsMap : List (NodeId × Region)) (depth : Nat) (g : Gather) :
    List PolyTraitRef → Gather
  | [] => g
  | p :: ps => gatherPtrs defsMap depth (gatherPtr defsMap depth g p) ps

def gatherBounds (defsMap : List (NodeId × Region)) (depth : Nat) (g : Gather) :
    List TyParamBound → Gather
  | [] => g
  | TyParamBound.TraitTyParamBound p :: bs =>
      gatherBounds defsMap depth (gatherPtr defsMap depth g p) bs
  | TyParamBound.RegionTyParamBound l :: bs =>
      gatherBounds defsMap depth (gatherLifetime defsMap depth g l) bs
end

/-- Models Option::unwrap on the possible implied output region; the
default is never reached when the total lifetime count is 1. -/
def unwrapRegion (o : Option Region) : Region :=
  o.getD (Region.LateBoundAnon 0 0)

/-- The per-argument loop of visit_fn_like_elision: each argument is
gathered starting from binder depth 1; the running count adds the size of
the argument's set; the possible implied output region is captured when
the running count first becomes 1 through a singleton argument; a failure
record is accumulated for every argument. -/
def elideLoop (defsMap : List (NodeId × Region)) (body : Option Nat) :
    List (Nat × Ty) → List ElisionFailureInfo × Nat × Option Region →
    List ElisionFailureInfo × Nat × Option Region
  | [], acc => acc
  | (i, input) :: rest, (records, lc, possible) =>
      elideLoop defsMap body rest
        (records ++
          [{ parent := body, index := i,
             lifetimeCount := (gatherTy defsMap 1 emptyGather input).lifetimes.length,
             haveBoundRegions := (gatherTy defsMap 1 emptyGather input).haveBoundRegions }],
         lc + (gatherTy defsMap 1 emptyGather input).lifetimes.length,
         if lc + (gatherTy defsMap 1 emptyGather input).lifetimes.length = 1
            ∧ (gatherTy defsMap 1 emptyGather input).lifetimes.length = 1
         then (gatherTy defsMap 1 emptyGather input).lifetimes.head? else possible)

/-- The count-based output elision policy of visit_fn_like_elision
(enumerate the arguments, skip a self argument, gather each, then Exact
of the possible implied region when the total count is 1 and Error with
the records otherwise). -/
def fnElideCompute (defsMap : List (NodeId × Region)) (body : Option Nat)
    (hasSelf : Bool) (inputs : List Ty) : Elide :=
  if (elideLoop defsMap body (inputs.enum.drop (if hasSelf then 1 else 0)) ([], 0, none)).2.1 = 1
  then Elide.Exact (unwrapRegion
    (elideLoop defsMap body (inputs.enum.drop (if hasSelf then 1 else 0)) ([], 0, none)).2.2)
  else Elide.Error
    (elideLoop defsMap body (inputs.enum.drop (if hasSelf then 1 else 0)) ([], 0, none)).1

/-- A Binder table built by collecting Region::late over declarations
(the collect of an iterator of pairs into FxHashMap: later pairs replace
earlier ones with the same name). -/
def mkLateTable (lds : List LifetimeDef) : NameTable :=
  lds.foldl (fun t d => mapInsert t (Region.late d).1 (Region.late d).2) []

/-- The default visit_lifetime_def of the main visitor: the declared
lifetime itself and then its bounds are visited as lifetime references. -/
def walkLifetimeDefsVis (env : HirEnv) (scope : Scope) (lds : List LifetimeDef) (st : St) : St :=
  lds.foldl (fun st d =>
    d.bounds.foldl (fun st b => visit_lifetime env scope b st)
      (visit_lifetime env scope d.lifetime st)) st

/-- What hir_map.get_parent_node followed by hir_map.get yields for the
output type of a fn-like signature, flattened to the data
visit_fn_like_elision extracts from it: the node kind, the body (if the
fn has one), whether the associated item kind has a self argument, and
the impl's self type for impl methods. -/
inductive FnLikeParent where
  | ItemFn (body : Nat)
  | TraitMethodRequired (hasSelf : Bool)
  | TraitMethodProvided (body : Nat) (hasSelf : Bool)
  | ImplMethod (body : Nat) (hasSelf : Bool) (implSelf : Option Ty)
  | TyOrTraitRef
  | ForeignItem
  | OtherParent

def FnLikeParent.bodyOf : FnLikeParent → Option Nat
  | FnLikeParent.ItemFn b => some b
  | FnLikeParent.TraitMethodRequired _ => none
  | FnLikeParent.TraitMethodProvided b _ => some b
  | FnLikeParent.ImplMethod b _ _ => some b
  | _ => none

def FnLikeParent.hasSelfOf : FnLikeParent → Bool
  | FnLikeParent.TraitMethodRequired h => h
  | FnLikeParent.TraitMethodProvided _ h => h
  | FnLikeParent.ImplMethod _ h _ => h
  | _ => false

def FnLikeParent.implSelfOf : FnLikeParent → Option Ty
  | FnLikeParent.ImplMethod _ _ s => s
  | _ => none

/-- is_self_ty of visit_fn_like_elision: Def::SelfTy always matches; else
the impl self type must be a plain resolved path whose Def is in the
whitelist (struct, union, enum, primitive) and equal to the argument. -/
def is_self_ty (implSelf : Option Ty) (d : Def) : Bool :=
  match d with
  | Def.SelfTy => true
  | _ =>
      match implSelf with
      | some (Ty.PathNone pdef _) =>
          match pdef with
          | Def.Struct _ => decide (d = pdef)
          | Def.Union _ => decide (d = pdef)
          | Def.Enum _ => decide (d = pdef)
          | Def.PrimTy _ => decide (d = pdef)
          | _ => false
      | _ => false

/-!
The main traversal over types (visit_ty, visit_path_parameters,
visit_poly_trait_ref, visit_fn_decl / visit_fn_like_elision of
LifetimeContext).  The default walks of the underlying HIR visitor
(intravisit) are not part of src/; they are modelled from the spec
sections 4.2 and 4.5-4.6: a reference type visits its lifetime then its
referent, a bare fn type visits its lifetime declarations then its
declaration, paths visit their qualified self type and segments, and
angle-bracketed parameters visit lifetimes, types and bindings.  hack is
the trait_ref_hack flag of the context; labels is labels_in_fn.
-/
mutual
def walkTy (env : HirEnv) (hack : Bool) (labels : List (Name × Nat)) (scope : Scope) :
    Ty → St → St
  | Ty.Rptr l t, st => walkTy env hack labels scope t (visit_lifetime env scope l st)
  | Ty.BareFn lds ins out, st =>
      let newScope := Scope.Binder (mkLateTable lds) scope
      let st := check_lifetime_defs env labels scope newScope lds st
      let st := walkLifetimeDefsVis env newScope lds st
      -- visit_fn_decl: visit_fn_like_elision with a NodeTy parent, inlined
      -- here for the recursion (see visit_fn_like_elision below, whose
      -- TyOrTraitRef case this is: no body, no self, count-based policy).
      let p0 := st.newCell 0
      let st := p0.2
      let p1 := st.newCell (st.getCell p0.1)
      let st := p1.2
      let st := walkTys env hack labels (Scope.Elision (Elide.FreshLateAnon p1.1) newScope) ins st
      let p2 := st.newCell (st.getCell p1.1)
      let st := p2.2
      match out with
      | none => st
      | some outTy =>
          walkTy env hack labels
            (Scope.Elision (fnElideCompute st.defs none false ins) newScope) outTy st
  | Ty.Tup ts, st => walkTys env hack labels scope ts st
  | Ty.PathNone _ segs, st => walkSegs env hack labels scope segs st
  | Ty.PathQSelf q segs, st =>
      walkSegs env hack labels scope segs (walkTy env hack labels scope q st)
  | Ty.PathTypeRel b seg, st =>
      walkSeg env hack labels scope seg (walkTy env hack labels scope b st)
  | Ty.TraitObject bs l, st =>
      let st := walkPtrs env hack labels scope bs st
      if l.is_elided then st else visit_lifetime env scope l st
  | Ty.ImplTrait bs, st => walkBoundsVis env hack labels scope bs st
  | Ty.Prim, st => st

def walkTys (env : HirEnv) (hack : Bool) (labels : List (Name × Nat)) (scope : Scope) :
    List Ty → St → St
  | [], st => st
  | t :: ts, st => walkTys env hack labels scope ts (walkTy env hack labels scope t st)

def walkOptTy (env : HirEnv) (hack : Bool) (labels : List (Name × Nat)) (scope : Scope) :
    Option Ty → St → St
  | none, st => st
  | some t, st => walkTy env hack labels scope t st

/-- The visit_path_parameters override: when every lifetime argument of
the segment is elided the whole group is resolved at once, otherwise each
is visited on its own; then the type and binding arguments. -/
def walkSeg (env : HirEnv) (hack : Bool) (labels : List (Name × Nat)) (scope : Scope) :
    PathSegment → St → St
  | PathSegment.mk ls ts bs, st =>
      let st :=
        if ls.all (fun l => l.is_elided) then resolve_elided_lifetimes env scope ls st
        else ls.foldl (fun st l => visit_lifetime env scope l st) st
      walkTys env hack labels scope bs (walkTys env hack labels scope ts st)

def walkSegs (env : HirEnv) (hack : Bool) (labels : List (Name × Nat)) (scope : Scope) :
    List PathSegment → St → St
  | [], st => st
  | s :: ss, st => walkSegs env hack labels scope ss (walkSeg env hack labels scope s st)

/-- The visit_poly_trait_ref override: when the where-clause already
opened the binder (trait_ref_hack) and this trait ref has no for-bounds,
only the trait ref is visited; otherwise a nested quantification under
the hack is an E0316 error, and a Binder of late regions is installed
around the declared lifetimes and the trait path. -/
def walkPtr (env : HirEnv) (hack : Bool) (labels : List (Name × Nat)) (scope : Scope) :
    PolyTraitRef → St → St
  | PolyTraitRef.mk lds _ segs, st =>
      if hack = false ∨ lds ≠ [] then
        let st := if hack then emitDiag st Diag.E0316 else st
        let newScope := Scope.Binder (mkLateTable lds) scope
        let st := check_lifetime_defs env labels scope newScope lds st
        let st := walkLifetimeDefsVis env newScope lds st
        walkSegs env hack labels newScope segs st
      else
        walkSegs env hack labels scope segs st

def walkPtrs (env : HirEnv) (hack : Bool) (labels : List (Name × Nat)) (scope : Scope) :
    List PolyTraitRef → St → St
  | [], st => st
  | p :: ps, st => walkPtrs env hack labels scope ps (walkPtr env hack labels scope p st)

def walkBoundsVis (env : HirEnv) (hack : Bool) (labels : List (Name × Nat)) (scope : Scope) :
    List TyParamBound → St → St
  | [], st => st
  | TyParamBound.TraitTyParamBound p :: bs, st =>
      walkBoundsVis env hack labels scope bs (walkPtr env hack labels scope p st)
  | TyParamBound.RegionTyParamBound l :: bs, st =>
      walkBoundsVis env hack labels scope bs (visit_lifetime env scope l st)
end

/-- visit_fn_like_elision.  The argument types are visited under a fresh
FreshLateAnon elision scope (whose Cell starts at 0); the scope's Elide
is then cloned back (arg_elide).  Without an output type nothing more
happens.  Otherwise the parent node of the output decides: foreign fn
declarations reuse the argument counter state for the output; parents
outside the case list (closures) get no elision scope at all; fn items,
methods and fn-like types pick Exact(region of a by-reference self) when
the first argument is a reference to the self type already resolved in
defs, and fall back to the count-based policy otherwise.  (The recursive
occurrence of this function inside type walking is the TyOrTraitRef case
inlined in the BareFn arm of walkTy.) -/
def visit_fn_like_elision (env : HirEnv) (hack : Bool) (labels : List (Name × Nat))
    (parent : FnLikeParent) (scope : Scope)
    (inputs : List Ty) (output : Option Ty) (st : St) : St :=
  let p0 := st.newCell 0
  let st := p0.2
  let p1 := st.newCell (st.getCell p0.1)
  let st := p1.2
  let argScope := Scope.Elision (Elide.FreshLateAnon p1.1) scope
  let st := walkTys env hack labels argScope inputs st
  let p2 := st.newCell (st.getCell p1.1)
  let st := p2.2
  match output with
  | none => st
  | some outTy =>
      match parent with
      | FnLikeParent.ForeignItem =>
          walkTy env hack labels (Scope.Elision (Elide.FreshLateAnon p2.1) scope) outTy st
      | FnLikeParent.OtherParent => walkTy env hack labels scope outTy st
      | _ =>
          let selfExact : Option Region :=
            if parent.hasSelfOf then
              match inputs with
              | Ty.Rptr lref (Ty.PathNone pdef _) :: _ =>
                  if is_self_ty parent.implSelfOf pdef then mapGet st.defs lref.id
                  else none
              | _ => none
            else none
          match selfExact with
          | some lifetime =>
              walkTy env hack labels (Scope.Elision (Elide.Exact lifetime) scope) outTy st
          | none =>
              let elide := fnElideCompute st.defs parent.bodyOf parent.hasSelfOf inputs
              walkTy env hack labels (Scope.Elision elide scope) outTy st

/-- The parent item data visit_early_late reads to find the first free
early-bound index: for a method, the parent trait or impl contributes its
lifetime and type parameter counts, and a trait additionally reserves
index 0 for Self. -/
structure ParentItemInfo where
  isTrait : Bool
  lifetimeCount : Nat
  tyParamCount : Nat

def visit_early_late_index0 : Option ParentItemInfo → Nat
  | none => 0
  | some p => (if p.isTrait then 1 else 0) + p.lifetimeCount + p.tyParamCount

/-- One declaration of the Binder table of visit_early_late: a
declaration found in late_bound becomes Region::late, the others receive
the next sequential Region::early index. -/
def visit_early_late_step (lateBound : List (NodeId × Issue32330))
    (acc : NameTable × Nat) (d : LifetimeDef) : NameTable × Nat :=
  if (mapGet lateBound d.lifetime.id).isSome then
    (mapInsert acc.1 (Region.late d).1 (Region.late d).2, acc.2)
  else
    (mapInsert acc.1 (Region.early acc.2 d).1.1 (Region.early acc.2 d).1.2,
     (Region.early acc.2 d).2)

/-- The Binder table of visit_early_late: collecting the pairs into the
FxHashMap lets a later declaration replace an earlier one with the same
name. -/
def visit_early_late_table (lateBound : List (NodeId × Issue32330)) (index0 : Nat)
    (defs : List LifetimeDef) : NameTable :=
  (defs.foldl (visit_early_late_step lateBound) (([] : NameTable), index0)).1

/-- visit_early_late: classify the declarations (insert_late_bound_lifetimes),
build the fn Binder, validate the declarations, and run the walk of the
item under the new scope. -/
def visit_early_late (env : HirEnv) (labels : List (Name × Nat)) (fnDefId : Nat)
    (parent : Option ParentItemInfo) (decl : FnDecl) (generics : Generics)
    (scope : Scope) (walk : Scope → St → St) (st : St) : St :=
  let st := { st with lateBound := insert_late_bound_lifetimes fnDefId decl generics st.lateBound }
  let table := visit_early_late_table st.lateBound (visit_early_late_index0 parent)
    generics.lifetimes
  let newScope := Scope.Binder table scope
  let st := check_lifetime_defs env labels scope newScope generics.lifetimes st
  walk newScope st

/-- The ItemStatic/ItemConst arm of visit_item: the type of the item is
visited under Elision Static whose parent is Root.  (The initializer body
holds expressions, not types, and is outside this model.) -/
def visit_item_static_ty (env : HirEnv) (t : Ty) (st : St) : St :=
  walkTy env false [] (Scope.Elision Elide.Static Scope.Root) t st

/-- Follows the words of the spec, for comparison only (claim C4): the
union over all (non-self) arguments of their gathered non-higher-ranked
lifetimes, post-normalization. -/
def specInputLifetimeUnion (defsMap : List (NodeId × Region)) (hasSelf : Bool)
    (inputs : List Ty) : List Region :=
  ((inputs.enum.drop (if hasSelf then 1 else 0)).map
      (fun p => (gatherTy defsMap 1 emptyGather p.2).lifetimes)).foldl
    (fun u s => s.foldl (fun u r => if r ∈ u then u else u ++ [r]) u) []

/-- Follows the words of the spec, for comparison only (claim C4):
whether any argument saw a higher-ranked (captured) region. -/
def specInputsHaveBoundRegions (defsMap : List (NodeId × Region)) (hasSelf : Bool)
    (inputs : List Ty) : Bool :=
  (inputs.enum.drop (if hasSelf then 1 else 0)).any
    (fun p => (gatherTy defsMap 1 emptyGather p.2).haveBoundRegions)

/-- A reference type with an elided lifetime at the given node id. -/
def elidedRptr (i : Nat) : Ty := Ty.Rptr { id := i, name := invalidName } Ty.Prim

/-- n argument types, each a reference with an elided lifetime, with node
ids 1..n. -/
def elidedInputs (n : Nat) : List Ty := (List.range' 1 n).map elidedRptr

/-- Statement helper (claim C5): the scope chain resolves the name at the
k-th Binder counted outward from the use site (so the use is textually
inside k binders, the declaring one included): the first k-1 binders lack
the name, Body and Elision scopes are passed through, and the k-th Binder
maps the name to r. -/
inductive FindsAt : Scope → Name → Nat → Region → Prop where
  | bodyStep (i : Nat) {s : Scope} {n : Name} {k : Nat} {r : Region} :
      FindsAt s n k r → FindsAt (Scope.Body i s) n k r
  | elisionStep (e : Elide) {s : Scope} {n : Name} {k : Nat} {r : Region} :
      FindsAt s n k r → FindsAt (Scope.Elision e s) n k r
  | binderMiss {t : NameTable} {s : Scope} {n : Name} {k : Nat} {r : Region} :
      mapGet t n = none → FindsAt s n k r → FindsAt (Scope.Binder t s) n (k + 1) r
  | binderHit {t : NameTable} {s : Scope} {n : Name} {r : Region} :
      mapGet t n = some r → FindsAt (Scope.Binder t s) n 1 r

/-- Statement helper (claim C10): the textually last declaration with the
given name in a declaration list. -/
def lastNamed (n : Name) : List LifetimeDef → Option LifetimeDef
  | [] => none
  | d :: rest =>
      match lastNamed n rest with
      | some x => some x
      | none => if d.lifetime.name = n then some d else none

/-- Statement helper (claims C6, C7): the defs entries produced by
resolving m elided references with ids a, a+1, ... against a FreshLateAnon
counter currently at k. -/
def rangeAnonDefs (a m k : Nat) (d : List (NodeId × Region)) : List (NodeId × Region) :=
  match m with
  | 0 => d
  | m' + 1 => rangeAnonDefs (a + 1) m' (k + 1) (mapInsert d a (Region.LateBoundAnon 1 k))

/-- A concrete environment for the closed instances below: every body is
owned by node 50, which is a fn-like item. -/
def exampleEnv : HirEnv :=
  { bodyOwner := fun _ => 50, fnLikeOwner := fun _ => true, staticInConst := false }

/-- Fixture (claim C4): the declaration of
fn f<'a>(x: &'a u8, y: &'a u8) -> &u8, with the lifetime parameter named
2 and declared at node 10; the three lifetime occurrences are nodes 1, 2
(named) and 3 (elided). -/
def c4Decl : FnDecl :=
  { inputs := [Ty.Rptr { id := 1, name := 2 } Ty.Prim, Ty.Rptr { id := 2, name := 2 } Ty.Prim]
    output := some (Ty.Rptr { id := 3, name := invalidName } Ty.Prim) }

def c4Gen : Generics :=
  { lifetimes := [{ lifetime := { id := 10, name := 2 }, bounds := [] }]
    tyParams := []
    wherePredicates := [] }

/-- Fixture (claim C4): the pass run over the fixture item: classify and
bind the generics, then visit the fn signature (the nested walk of a fn
item reaching its declaration through visit_fn_decl). -/
def c4Run : St :=
  visit_early_late exampleEnv [] 77 none c4Decl c4Gen Scope.Root
    (fun sc st => visit_fn_like_elision exampleEnv false [] (FnLikeParent.ItemFn 99) sc
      c4Decl.inputs c4Decl.output st) emptySt

/-- Fixture (claim C8): fn f<'a: 'static>() — a lifetime parameter
(name 2, node 10) whose bound is the static lifetime (node 7). -/
def c8Defs : List LifetimeDef :=
  [{ lifetime := { id := 10, name := 2 }, bounds := [{ id := 7, name := staticLifetimeName }] }]

/-- Fixture (claim C10): fn m<'a, 'a>() — the same name (2) declared
twice, at nodes 11 and 12. -/
def c10Defs : List LifetimeDef :=
  [{ lifetime := { id := 11, name := 2 }, bounds := [] },
   { lifetime := { id := 12, name := 2 }, bounds := [] }]

/-- Fixture (claim C3): a use site inside the body (node 100) of a fn-like
owner, where the enclosing binder maps name 2 to an early-bound region
declared at node 10. -/
def c3Scope : Scope :=
  Scope.Body 100 (Scope.Binder [(2, Region.EarlyBound 0 10)] Scope.Root)

/-- Fixture (claim C5): a use site inside two binders; the inner binder
declares name 3 (node 7), the outer one declares name 2 (node 5). -/
def c5Scope : Scope :=
  Scope.Binder [(3, Region.LateBound 1 7)] (Scope.Binder [(2, Region.LateBound 1 5)] Scope.Root)

/-- Fixture (claim C2): a trait object type whose trailing lifetime is
elided (node 5), as in a static item of type Box<Trait>. -/
def c2TraitObjTy : Ty :=
  Ty.TraitObject [PolyTraitRef.mk [] Def.OtherDef [PathSegment.mk [] [] []]]
    { id := 5, name := invalidName }

/-! Theorems.  Helper lemmas first, then one theorem per claim (with its
counterexample and witness where required). -/

theorem mapGet_mapInsert_self {α β : Type} [DecidableEq α] (m : List (α × β)) (k : α) (v : β) :
    mapGet (mapInsert m k v) k = some v := by
  induction m with
  | nil => simp [mapInsert, mapGet]
  | cons p rest ih =>
      obtain ⟨a, b⟩ := p
      by_cases hp : a = k
      · subst hp
        simp [mapInsert, mapGet]
      · simp [mapInsert, mapGet, hp, ih]

theorem mapGet_mapInsert_ne {α β : Type} [DecidableEq α] (m : List (α × β)) (k k' : α) (v : β)
    (h : k' ≠ k) : mapGet (mapInsert m k v) k' = mapGet m k' := by
  induction m with
  | nil => simp [mapInsert, mapGet, Ne.symm h]
  | cons p rest ih =>
      obtain ⟨a, b⟩ := p
      by_cases hp : a = k
      · subst hp
        simp [mapInsert, mapGet, Ne.symm h]
      · by_cases hp' : a = k'
        · simp [mapInsert, mapGet, hp, hp', h]
        · simp [mapInsert, mapGet, hp, hp', ih]

theorem lateBound_fold_not_mem (fnDefId : Nat) (cIn : List Name) (oOut wOut : AllOut)
    (l : List LifetimeDef) (k : NodeId) :
    ∀ m : List (NodeId × Issue32330), k ∉ l.map (fun d => d.lifetime.id) →
    mapGet (l.foldl (lateBoundStep fnDefId cIn oOut wOut) m) k = mapGet m k := by
  induction l with
  | nil => intro m _; rfl
  | cons x xs ih =>
      intro m hk
      simp only [List.map_cons, List.mem_cons] at hk
      push_neg at hk
      rw [List.foldl_cons, ih _ hk.2]
      unfold lateBoundStep
      split
      · rfl
      · split
        · rfl
        · exact mapGet_mapInsert_ne _ _ _ _ hk.1

theorem lateBound_fold_get (fnDefId : Nat) (cIn : List Name) (oOut wOut : AllOut)
    (l : List LifetimeDef) (d : LifetimeDef) :
    ∀ m : List (NodeId × Issue32330), d ∈ l → (l.map (fun d => d.lifetime.id)).Nodup →
    mapGet (l.foldl (lateBoundStep fnDefId cIn oOut wOut) m) d.lifetime.id =
      if wOut.regions.contains d.lifetime.name = false ∧ oOut.implTrait = false then
        some (if !(cIn.contains d.lifetime.name) && oOut.regions.contains d.lifetime.name
              then Issue32330.WillChange fnDefId d.lifetime.name else Issue32330.WontChange)
      else mapGet m d.lifetime.id := by
  induction l with
  | nil => intro m hd _; cases hd
  | cons x xs ih =>
      intro m hd hnd
      simp only [List.map_cons, List.nodup_cons] at hnd
      rcases List.mem_cons.mp hd with hdx | hdxs
      · subst hdx
        rw [List.foldl_cons,
            lateBound_fold_not_mem fnDefId cIn oOut wOut xs d.lifetime.id _ hnd.1]
        unfold lateBoundStep
        cases hw : wOut.regions.contains d.lifetime.name with
        | true => simp [hw]
        | false =>
            cases ho : oOut.implTrait with
            | true => simp [hw, ho]
            | false => simp [hw, ho, mapGet_mapInsert_self]
      · have hne : d.lifetime.id ≠ x.lifetime.id := by
          intro he
          apply hnd.1
          rw [← he]
          exact List.mem_map_of_mem (fun d => d.lifetime.id) hdxs
        have hstep : mapGet (lateBoundStep fnDefId cIn oOut wOut m x) d.lifetime.id
            = mapGet m d.lifetime.id := by
          unfold lateBoundStep
          split
          · rfl
          · split
            · rfl
            · exact mapGet_mapInsert_ne _ _ _ _ hne
        rw [List.foldl_cons, ih _ hdxs hnd.2, hstep]

/-- Claim C1 (corrected): what insert_late_bound_lifetimes records.  A
declaration lands in late_bound iff its name appears in no where-clause
and the return type holds no impl Trait; being constrained by an input
type is not required for membership and only selects the WillChange
marker. -/
theorem c1_theorem (fnDefId : Nat) (decl : FnDecl) (generics : Generics) (d : LifetimeDef)
    (hd : d ∈ generics.lifetimes)
    (hnd : (generics.lifetimes.map (fun d => d.lifetime.id)).Nodup) :
    mapGet (insert_late_bound_lifetimes fnDefId decl generics []) d.lifetime.id =
      if (lateBoundWhere generics).regions.contains d.lifetime.name = false
         ∧ (lateBoundOutput decl).implTrait = false then
        some (if !((lateBoundConstrained decl).contains d.lifetime.name)
                && (lateBoundOutput decl).regions.contains d.lifetime.name
              then Issue32330.WillChange fnDefId d.lifetime.name else Issue32330.WontChange)
      else none := by
  unfold insert_late_bound_lifetimes
  rw [lateBound_fold_get _ _ _ _ _ _ _ hd hnd]
  split
  · rfl
  · rfl

/-- Claim C1, witness for the amended theorem: fn f<'a>() has its
parameter recorded (WontChange) although it is not constrained by any
input type. -/
theorem c1_witness :
    mapGet (insert_late_bound_lifetimes 77 { inputs := [], output := none } c4Gen []) 10
      = some Issue32330.WontChange := by
  have h := c1_theorem 77 { inputs := [], output := none } c4Gen
    { lifetime := { id := 10, name := 2 }, bounds := [] } (by decide) (by decide)
  rw [h]
  decide

/-- Claim C1, counterexample to the claim as stated: for fn f<'a>() the
parameter is not constrained by any input type (and appears in no
where-clause, with no impl Trait in the return type), yet the pass
records it in late_bound; the claimed iff with the constrained-by-input
condition fails. -/
theorem c1_counterexample :
    (lateBoundConstrained { inputs := [], output := none }).contains 2 = false
    ∧ (lateBoundWhere c4Gen).regions.contains 2 = false
    ∧ (lateBoundOutput { inputs := [], output := none }).implTrait = false
    ∧ mapGet (insert_late_bound_lifetimes 77 { inputs := [], output := none } c4Gen []) 10
        = some Issue32330.WontChange := by
  decide

/-- Claim C3 (corrected): what resolve_lifetime_ref stores.  When the
scope walk finds a region and an enclosing body whose owner is a fn item
or a trait/impl method, the stored region is Free(call-site scope,
decl id) regardless of the kind of the binding found; without such a
body, the shifted region is stored as found. -/
theorem c3_theorem (env : HirEnv) (scope : Scope) (ref : Lifetime) (st : St)
    (r : Region) (ob : Option Nat)
    (h : resolveRefWalk scope ref.name 0 none = (some r, ob)) :
    mapGet (resolve_lifetime_ref env scope ref st).defs ref.id =
      some (promoteFree env ob r)
    ∧ (∀ b, ob = some b → env.fnLikeOwner (env.bodyOwner b) = true →
        promoteFree env ob r = Region.Free (env.bodyOwner b) b ((Region.id? r).getD 0))
    ∧ (ob = none → promoteFree env ob r = r) := by
  refine ⟨?_, ?_, ?_⟩
  · unfold resolve_lifetime_ref
    rw [h]
    simp [insert_lifetime, mapGet_mapInsert_self]
  · intro b hb hf
    subst hb
    simp [promoteFree, hf]
  · intro hb
    subst hb
    rfl

/-- Claim C3, witness for the amended theorem: a use of an early-bound
binding inside a fn body is promoted to Free. -/
theorem c3_witness :
    mapGet (resolve_lifetime_ref exampleEnv c3Scope { id := 7, name := 2 } emptySt).defs 7
      = some (Region.Free 50 100 10) := by
  have h := (c3_theorem exampleEnv c3Scope { id := 7, name := 2 } emptySt
    (Region.EarlyBound 0 10) (some 100) (by decide)).1
  rw [h]
  decide

/-- Claim C3, counterexample to the claim as stated: the binding found for
the use at node 7 is EarlyBound (not late-bound), the use sits inside a
body of a fn-like owner, and the pass stores Free, not the early-bound
region as-is. -/
theorem c3_counterexample :
    resolveRefWalk c3Scope 2 0 none = (some (Region.EarlyBound 0 10), some 100)
    ∧ mapGet (resolve_lifetime_ref exampleEnv c3Scope { id := 7, name := 2 } emptySt).defs 7
        = some (Region.Free 50 100 10)
    ∧ mapGet (resolve_lifetime_ref exampleEnv c3Scope { id := 7, name := 2 } emptySt).defs 7
        ≠ some (Region.EarlyBound 0 10) := by
  decide

/-- Claim C8 (corrected): every non-elided reference whose name is the
static keyword that is visited through visit_lifetime is bound to
Region::Static. -/
theorem c8_theorem (env : HirEnv) (scope : Scope) (ref : Lifetime) (st : St)
    (h : ref.name = staticLifetimeName) :
    mapGet (visit_lifetime env scope ref st).defs ref.id = some Region.Static := by
  have he : ref.is_elided = false := by
    simp [Lifetime.is_elided, h, staticLifetimeName, invalidName]
  unfold visit_lifetime
  rw [he]
  simp [h, insert_lifetime, mapGet_mapInsert_self]

/-- Claim C8, witness for the amended theorem. -/
theorem c8_witness :
    mapGet (visit_lifetime exampleEnv Scope.Root { id := 4, name := staticLifetimeName }
      emptySt).defs 4 = some Region.Static :=
  c8_theorem exampleEnv Scope.Root { id := 4, name := staticLifetimeName } emptySt rfl

/-- Claim C8, counterexample to the claim as stated: the static keyword
used as a bound of a lifetime declaration (fn f<'a: 'static>()) is
resolved through resolve_lifetime_ref, which looks the reserved name up
as an ordinary name, finds nothing, emits E0261, and stores no region
for the use (in particular not Static). -/
theorem c8_counterexample :
    (check_lifetime_defs exampleEnv [] Scope.Root (Scope.Binder (mkLateTable c8Defs) Scope.Root)
        c8Defs emptySt).diags = [Diag.E0261 7 staticLifetimeName]
    ∧ mapGet (check_lifetime_defs exampleEnv [] Scope.Root
        (Scope.Binder (mkLateTable c8Defs) Scope.Root) c8Defs emptySt).defs 7 = none := by
  decide

/-- Claim C9 (confirmed): signal_shadowing_problem is a hard error with
code E0496 exactly when a lifetime shadows a lifetime, and a warning for
every combination involving a label; both sites are labelled, the
shadower with the already-in-scope label. -/
theorem c9_theorem (name : Name) (orig : Original) (shadower : Shadower) :
    ((signal_shadowing_problem name orig shadower).isError = true
       ↔ orig.kind = ShadowKind.Lifetime ∧ shadower.kind = ShadowKind.Lifetime)
    ∧ ((signal_shadowing_problem name orig shadower).code = some 496
       ↔ orig.kind = ShadowKind.Lifetime ∧ shadower.kind = ShadowKind.Lifetime)
    ∧ (signal_shadowing_problem name orig shadower).labels
        = [DiagLabel.firstDeclaredHere orig.span, DiagLabel.alreadyInScope shadower.span name] := by
  obtain ⟨ok, os⟩ := orig
  obtain ⟨sk, ss⟩ := shadower
  cases ok <;> cases sk <;> simp [signal_shadowing_problem]

theorem findsAt_pos {scope : Scope} {n : Name} {k : Nat} {r : Region}
    (h : FindsAt scope n k r) : 1 ≤ k := by
  induction h with
  | bodyStep _ _ ih => exact ih
  | elisionStep _ _ ih => exact ih
  | binderMiss _ _ _ => omega
  | binderHit _ => omega

theorem findsAt_walk {scope : Scope} {n : Name} {k : Nat} {r : Region}
    (h : FindsAt scope n k r) :
    ∀ (d : Nat) (ob : Option Nat),
      (resolveRefWalk scope n d ob).1 = some (r.shifted (d + (k - 1))) := by
  induction h with
  | bodyStep i h ih =>
      intro d ob
      simpa [resolveRefWalk] using ih d _
  | elisionStep e h ih =>
      intro d ob
      simpa [resolveRefWalk] using ih d ob
  | binderMiss hmiss h ih =>
      rename_i t' s' n' k' r'
      intro d ob
      have hk := findsAt_pos h
      have step := ih (d + 1) ob
      have harith : (d + 1) + (k' - 1) = d + (k' + 1 - 1) := by omega
      rw [harith] at step
      simp only [resolveRefWalk, hmiss]
      exact step
  | binderHit hhit =>
      intro d ob
      simp [resolveRefWalk, hhit]

/-- Claim C5 (confirmed): name lookup walks leaf to root, passes through
Body and Elision scopes, counts each Binder lacking the name, and returns
the found region shifted by that count; hence a name found in the k-th
binder outward (counting the declaring one), whose table entry is the
LateBound of depth 1 installed by Region::late, resolves to LateBound at
de Bruijn depth exactly k. -/
theorem c5_theorem (scope : Scope) (n : Name) (k : Nat) (r : Region) (i : NodeId)
    (h : FindsAt scope n k r) :
    (resolveRefWalk scope n 0 none).1 = some (r.shifted (k - 1))
    ∧ (r = Region.LateBound 1 i →
        (resolveRefWalk scope n 0 none).1 = some (Region.LateBound k i)) := by
  have hw := findsAt_walk h 0 none
  rw [Nat.zero_add] at hw
  refine ⟨hw, ?_⟩
  intro hr
  subst hr
  rw [hw]
  have hk := findsAt_pos h
  simp only [Region.shifted]
  congr 2
  omega

/-- Claim C5, witness: in for<'b> fn(...) nested inside the binder of 'a,
the use of the outer name resolves with de Bruijn depth 2. -/
theorem c5_witness :
    (resolveRefWalk c5Scope 2 0 none).1 = some (Region.LateBound 2 5) :=
  (c5_theorem c5Scope 2 2 (Region.LateBound 1 5) 5
    (FindsAt.binderMiss (by decide) (FindsAt.binderHit (by decide)))).2 rfl

theorem lastNamed_none_step (lb : List (NodeId × Issue32330)) (n : Name) :
    ∀ (l : List LifetimeDef) (acc : NameTable × Nat), lastNamed n l = none →
      mapGet (l.foldl (visit_early_late_step lb) acc).1 n = mapGet acc.1 n := by
  intro l
  induction l with
  | nil => intro acc _; rfl
  | cons x xs ih =>
      intro acc hnone
      unfold lastNamed at hnone
      cases hx : lastNamed n xs with
      | some y => rw [hx] at hnone; simp at hnone
      | none =>
          rw [hx] at hnone
          by_cases hname : x.lifetime.name = n
          · simp [hname] at hnone
          · have hstep : mapGet (visit_early_late_step lb acc x).1 n = mapGet acc.1 n := by
              unfold visit_early_late_step
              split
              · exact mapGet_mapInsert_ne _ _ _ _ (fun he => hname he.symm)
              · exact mapGet_mapInsert_ne _ _ _ _ (fun he => hname he.symm)
            rw [List.foldl_cons, ih _ hx, hstep]

theorem lastNamed_some_get (lb : List (NodeId × Issue32330)) (n : Name) :
    ∀ (l : List LifetimeDef) (d : LifetimeDef) (acc : NameTable × Nat),
      lastNamed n l = some d →
      ∃ r, mapGet (l.foldl (visit_early_late_step lb) acc).1 n = some r
        ∧ Region.id? r = some d.lifetime.id := by
  intro l
  induction l with
  | nil => intro d acc h; simp [lastNamed] at h
  | cons x xs ih =>
      intro d acc h
      unfold lastNamed at h
      cases hx : lastNamed n xs with
      | some y =>
          rw [hx] at h
          have hyd : y = d := by simpa using h
          subst hyd
          rw [List.foldl_cons]
          exact ih _ _ hx
      | none =>
          rw [hx] at h
          by_cases hname : x.lifetime.name = n
          · have hxd : x = d := by simpa [hname] using h
            subst hxd
            rw [List.foldl_cons, lastNamed_none_step lb n xs _ hx]
            unfold visit_early_late_step
            by_cases hlb : (mapGet lb x.lifetime.id).isSome
            · refine ⟨Region.LateBound 1 x.lifetime.id, ?_, rfl⟩
              rw [if_pos hlb]
              simpa [Region.late, hname] using
                mapGet_mapInsert_self acc.1 n (Region.LateBound 1 x.lifetime.id)
            · refine ⟨Region.EarlyBound acc.2 x.lifetime.id, ?_, rfl⟩
              rw [if_neg hlb]
              simpa [Region.early, hname] using
                mapGet_mapInsert_self acc.1 n (Region.EarlyBound acc.2 x.lifetime.id)
          · simp [hname] at h

/-- Claim C10 (confirmed): with duplicate declarations of one name in a
single binder, the FxHashMap collect lets the textually last declaration
replace the earlier ones, so lookups resolve to the last declaration's
region; the duplicate is reported (E0263) and the pass continues, as the
concrete run of fn m<'a, 'a>() shows, where a reference to the name
resolves to the region of the second declaration (node 12). -/
theorem c10_theorem :
    (∀ (lb : List (NodeId × Issue32330)) (i0 : Nat) (defs : List LifetimeDef)
       (n : Name) (d : LifetimeDef), lastNamed n defs = some d →
       ∃ r, mapGet (visit_early_late_table lb i0 defs) n = some r
         ∧ Region.id? r = some d.lifetime.id)
    ∧ (check_lifetime_defs exampleEnv [] Scope.Root
         (Scope.Binder (mkLateTable c10Defs) Scope.Root) c10Defs emptySt).diags
        = [Diag.E0263 12 2]
    ∧ mapGet (resolve_lifetime_ref exampleEnv
         (Scope.Binder (visit_early_late_table
            [(11, Issue32330.WontChange), (12, Issue32330.WontChange)] 0 c10Defs) Scope.Root)
         { id := 20, name := 2 } emptySt).defs 20 = some (Region.LateBound 1 12) := by
  refine ⟨?_, by decide, by decide⟩
  intro lb i0 defs n d h
  exact lastNamed_some_get lb n defs d (([] : NameTable), i0) h

/-- Claim C10, witness. -/
theorem c10_witness :
    ∃ r, mapGet (visit_early_late_table [(11, Issue32330.WontChange),
        (12, Issue32330.WontChange)] 0 c10Defs) 2 = some r
      ∧ Region.id? r = some 12 :=
  c10_theorem.1 [(11, Issue32330.WontChange), (12, Issue32330.WontChange)] 0 c10Defs 2
    { lifetime := { id := 12, name := 2 }, bounds := [] } (by decide)

theorem resolveElidedWalk_single (env : HirEnv) (ref : Lifetime) (span : Nat) :
    ∀ (scope : Scope) (lateDepth : Nat) (st : St),
      (mapGet (resolveElidedWalk env [ref] span scope lateDepth st).defs ref.id).isSome = true
      ∨ st.diags.length < (resolveElidedWalk env [ref] span scope lateDepth st).diags.length
      ∨ elidedStopsAtBody scope = true := by
  intro scope
  induction scope with
  | Body i s ih => intro d st; right; right; rfl
  | Root => intro d st; right; left; simp [resolveElidedWalk, emitDiag]
  | Binder t s ih =>
      intro d st
      have h := ih (d + 1) st
      simpa [resolveElidedWalk, elidedStopsAtBody] using h
  | Elision e s ih =>
      intro d st
      cases e with
      | FreshLateAnon c =>
          left
          simp [resolveElidedWalk, elideFreshLoop, insert_lifetime, St.setCell,
                mapGet_mapInsert_self]
      | Exact l =>
          left
          simp [resolveElidedWalk, insert_lifetime, mapGet_mapInsert_self]
      | Static =>
          left
          by_cases hf : env.staticInConst
          · simp [resolveElidedWalk, hf, insert_lifetime, mapGet_mapInsert_self]
          · simp [resolveElidedWalk, hf, insert_lifetime, emitDiag, mapGet_mapInsert_self]
      | Error recs =>
          right; left
          simp [resolveElidedWalk, emitDiag]

/-- Claim C2 (corrected): every lifetime occurrence that reaches
visit_lifetime is either recorded in defs or costs a diagnostic, except
an elided occurrence whose scope walk reaches a Body before any Elision
scope (deferred to type inference); and an elided trait-object lifetime
never reaches visit_lifetime at all: the visitor skips it silently. -/
theorem c2_theorem :
    (∀ (env : HirEnv) (scope : Scope) (ref : Lifetime) (st : St),
       (mapGet (visit_lifetime env scope ref st).defs ref.id).isSome = true
       ∨ st.diags.length < (visit_lifetime env scope ref st).diags.length
       ∨ (ref.is_elided = true ∧ elidedStopsAtBody scope = true))
    ∧ (∀ (env : HirEnv) (hack : Bool) (labels : List (Name × Nat)) (scope : Scope)
         (l : Lifetime) (st : St), l.is_elided = true →
       walkTy env hack labels scope (Ty.TraitObject [] l) st = st) := by
  constructor
  · intro env scope ref st
    by_cases he : ref.is_elided
    · have h := resolveElidedWalk_single env ref ref.id scope 0 st
      rcases h with h | h | h
      · left
        simpa [visit_lifetime, he, resolve_elided_lifetimes] using h
      · right; left
        simpa [visit_lifetime, he, resolve_elided_lifetimes] using h
      · right; right
        exact ⟨he, h⟩
    · have he' : ref.is_elided = false := by simpa using he
      by_cases hs : ref.name = staticLifetimeName
      · left
        simp [visit_lifetime, he', hs, insert_lifetime, mapGet_mapInsert_self]
      · rcases hw : resolveRefWalk scope ref.name 0 none with ⟨o, ob⟩
        cases o with
        | some r =>
            left
            simp [visit_lifetime, he', hs, resolve_lifetime_ref, hw, insert_lifetime,
                  mapGet_mapInsert_self]
        | none =>
            right; left
            simp [visit_lifetime, he', hs, resolve_lifetime_ref, hw, emitDiag]
  · intro env hack labels scope l st hl
    simp [walkTy, walkPtrs, hl]

/-- Claim C2, counterexample to the claim as stated: the elided trailing
lifetime (node 5) of a trait object type inside a static item is a
lifetime-use node of the crate, yet after the pass it is not in defs and
no diagnostic was emitted — the pass leaves it silently unmapped. -/
theorem c2_counterexample :
    visit_item_static_ty exampleEnv c2TraitObjTy emptySt = emptySt
    ∧ mapGet emptySt.defs 5 = none
    ∧ emptySt.diags = [] := by
  refine ⟨by decide, rfl, rfl⟩

/-- Claim C2, witness for the amended theorem. -/
theorem c2_witness :
    ((mapGet (visit_lifetime exampleEnv Scope.Root { id := 8, name := 3 } emptySt).defs 8).isSome
        = true
      ∨ emptySt.diags.length
          < (visit_lifetime exampleEnv Scope.Root { id := 8, name := 3 } emptySt).diags.length
      ∨ (Lifetime.is_elided { id := 8, name := 3 } = true ∧ elidedStopsAtBody Scope.Root = true))
    ∧ walkTy exampleEnv false [] Scope.Root
        (Ty.TraitObject [] { id := 6, name := invalidName }) emptySt = emptySt :=
  ⟨c2_theorem.1 exampleEnv Scope.Root { id := 8, name := 3 } emptySt,
   c2_theorem.2 exampleEnv false [] Scope.Root { id := 6, name := invalidName } emptySt rfl⟩

theorem getD_set_self : ∀ (l : List Nat) (c v : Nat), c < l.length → (l.set c v).getD c 0 = v := by
  intro l
  induction l with
  | nil => intro c v h; simp at h
  | cons x xs ih =>
      intro c v h
      cases c with
      | zero => rfl
      | succ c' =>
          simp only [List.set, List.getD, List.length_cons] at *
          exact ih c' v (by omega)

theorem elideFreshLoop_spec (cell : Nat) (lateDepth : Nat) :
    ∀ (refs : List Lifetime) (st : St), cell < st.cells.length →
      (refs.map (fun l => l.id)).Nodup →
      (∀ i, i ∉ refs.map (fun l => l.id) →
         mapGet (elideFreshLoop cell lateDepth refs st).defs i = mapGet st.defs i)
      ∧ (∀ j (hj : j < refs.length),
           mapGet (elideFreshLoop cell lateDepth refs st).defs (refs.get ⟨j, hj⟩).id
             = some ((Region.LateBoundAnon 1 (st.getCell cell + j)).shifted lateDepth))
      ∧ (elideFreshLoop cell lateDepth refs st).getCell cell
          = st.getCell cell + refs.length
      ∧ (elideFreshLoop cell lateDepth refs st).cells.length = st.cells.length := by
  intro refs
  induction refs with
  | nil =>
      intro st hc hnd
      exact ⟨fun i _ => rfl, fun j hj => absurd hj (by simp), by simp [elideFreshLoop], rfl⟩
  | cons r rest ih =>
      intro st hc hnd
      simp only [List.map_cons, List.nodup_cons] at hnd
      have hcells1 :
          (insert_lifetime (st.setCell cell (st.getCell cell + 1)) r
            ((Region.LateBoundAnon 1 (st.getCell cell)).shifted lateDepth)).cells.length
            = st.cells.length := by
        simp [insert_lifetime, St.setCell]
      have hcell1 :
          (insert_lifetime (st.setCell cell (st.getCell cell + 1)) r
            ((Region.LateBoundAnon 1 (st.getCell cell)).shifted lateDepth)).getCell cell
            = st.getCell cell + 1 := by
        simp only [insert_lifetime, St.setCell, St.getCell]
        exact getD_set_self st.cells cell _ hc
      have hdefs1 :
          (insert_lifetime (st.setCell cell (st.getCell cell + 1)) r
            ((Region.LateBoundAnon 1 (st.getCell cell)).shifted lateDepth)).defs
            = mapInsert st.defs r.id ((Region.LateBoundAnon 1 (st.getCell cell)).shifted
                lateDepth) := by
        simp [insert_lifetime, St.setCell]
      have hstep : elideFreshLoop cell lateDepth (r :: rest) st
          = elideFreshLoop cell lateDepth rest
              (insert_lifetime (st.setCell cell (st.getCell cell + 1)) r
                ((Region.LateBoundAnon 1 (st.getCell cell)).shifted lateDepth)) := by
        simp [elideFreshLoop, St.getCell]
      have hih := ih _ (by rw [hcells1]; exact hc) hnd.2
      refine ⟨?_, ?_, ?_, ?_⟩
      · intro i hi
        simp only [List.map_cons, List.mem_cons] at hi
        push_neg at hi
        rw [hstep, hih.1 i hi.2, hdefs1, mapGet_mapInsert_ne _ _ _ _ hi.1]
      · intro j hj
        cases j with
        | zero =>
            have hget0 : (r :: rest).get ⟨0, hj⟩ = r := rfl
            rw [hget0, hstep, hih.1 r.id hnd.1, hdefs1]
            simpa using mapGet_mapInsert_self st.defs r.id _
        | succ j' =>
            have hj' : j' < rest.length := by simpa using hj
            have h2 := hih.2.1 j' hj'
            rw [hcell1] at h2
            have harith : st.getCell cell + 1 + j' = st.getCell cell + (j' + 1) := by omega
            rw [harith] at h2
            have hget : (r :: rest).get ⟨j' + 1, hj⟩ = rest.get ⟨j', hj'⟩ := rfl
            rw [hstep, hget]
            exact h2
      · rw [hstep, hih.2.2.1, hcell1]
        simp only [List.length_cons]
        omega
      · rw [hstep, hih.2.2.2, hcells1]

/-- Claim C7 (corrected): how a FreshLateAnon elision scope assigns
indices.  A run of resolutions against the scope assigns consecutive
indices starting at the counter's current value and advances the counter
by the number of references; the indices of one scope are therefore
contiguous and duplicate-free starting from the counter's initial value —
which is 0 for every scope the pass opens except the foreign-function
return-type scope, whose counter starts at the input count. -/
theorem c7_theorem (env : HirEnv) (c : Nat) (s : Scope) (refs : List Lifetime) (st : St)
    (hc : c < st.cells.length) (hnd : (refs.map (fun l => l.id)).Nodup) :
    (∀ j (hj : j < refs.length),
       mapGet (resolve_elided_lifetimes env (Scope.Elision (Elide.FreshLateAnon c) s)
           refs st).defs (refs.get ⟨j, hj⟩).id
         = some (Region.LateBoundAnon 1 (st.getCell c + j)))
    ∧ (resolve_elided_lifetimes env (Scope.Elision (Elide.FreshLateAnon c) s) refs st).getCell c
        = st.getCell c + refs.length := by
  cases refs with
  | nil => exact ⟨fun j hj => absurd hj (by simp), by simp [resolve_elided_lifetimes]⟩
  | cons r rest =>
      have h := elideFreshLoop_spec c 0 (r :: rest) st hc hnd
      refine ⟨?_, ?_⟩
      · intro j hj
        have h2 := h.2.1 j hj
        simpa [resolve_elided_lifetimes, resolveElidedWalk, Region.shifted] using h2
      · simpa [resolve_elided_lifetimes, resolveElidedWalk] using h.2.2.1

/-- Claim C7, witness for the amended theorem: two elided refs against a
counter standing at 5 receive 5 and 6 and leave the counter at 7. -/
theorem c7_witness :
    mapGet (resolve_elided_lifetimes exampleEnv
        (Scope.Elision (Elide.FreshLateAnon 0) Scope.Root)
        [{ id := 21, name := invalidName }, { id := 22, name := invalidName }]
        { defs := [], lateBound := [], diags := [], cells := [5] }).defs 22
      = some (Region.LateBoundAnon 1 6)
    ∧ (resolve_elided_lifetimes exampleEnv
        (Scope.Elision (Elide.FreshLateAnon 0) Scope.Root)
        [{ id := 21, name := invalidName }, { id := 22, name := invalidName }]
        { defs := [], lateBound := [], diags := [], cells := [5] }).getCell 0 = 7 := by
  have h := c7_theorem exampleEnv 0 Scope.Root
    [{ id := 21, name := invalidName }, { id := 22, name := invalidName }]
    { defs := [], lateBound := [], diags := [], cells := [5] } (by decide) (by decide)
  exact ⟨h.1 1 (by decide), h.2⟩

/-- Claim C7, counterexample to the claim as stated: in a foreign fn with
one elided input and an elided return type, the return type is resolved
in a FreshLateAnon elision scope of its own (the cloned argument
counter), and the single index assigned within that scope is 1, not 0 —
the indices of that scope are not 0..k-1. -/
theorem c7_counterexample :
    mapGet (visit_fn_like_elision exampleEnv false [] FnLikeParent.ForeignItem Scope.Root
        [elidedRptr 1] (some (elidedRptr 2)) emptySt).defs 2
      = some (Region.LateBoundAnon 1 1)
    ∧ mapGet (visit_fn_like_elision exampleEnv false [] FnLikeParent.ForeignItem Scope.Root
        [elidedRptr 1] (some (elidedRptr 2)) emptySt).defs 1
      = some (Region.LateBoundAnon 1 0) := by
  decide

theorem walkTy_elided_step (env : HirEnv) (hack : Bool) (labels : List (Name × Nat))
    (c : Nat) (s : Scope) (i : Nat) (dfs : List (NodeId × Region))
    (lb : List (NodeId × Issue32330)) (dgs : List Diag) (cells : List Nat) :
    walkTy env hack labels (Scope.Elision (Elide.FreshLateAnon c) s) (elidedRptr i)
      { defs := dfs, lateBound := lb, diags := dgs, cells := cells }
      = { defs := mapInsert dfs i (Region.LateBoundAnon 1 (cells.getD c 0)), lateBound := lb,
          diags := dgs, cells := cells.set c (cells.getD c 0 + 1) } := by
  simp [elidedRptr, walkTy, visit_lifetime, Lifetime.is_elided, invalidName,
        resolve_elided_lifetimes, resolveElidedWalk, elideFreshLoop,
        St.getCell, St.setCell, insert_lifetime, Region.shifted]

theorem c6_inputs_walk (env : HirEnv) (hack : Bool) (labels : List (Name × Nat)) (s : Scope) :
    ∀ (m a k v0 : Nat) (dfs : List (NodeId × Region)) (lb : List (NodeId × Issue32330))
      (dgs : List Diag),
      walkTys env hack labels (Scope.Elision (Elide.FreshLateAnon 1) s)
          ((List.range' a m).map elidedRptr)
          { defs := dfs, lateBound := lb, diags := dgs, cells := [v0, k] }
        = { defs := rangeAnonDefs a m k dfs, lateBound := lb, diags := dgs,
            cells := [v0, k + m] } := by
  intro m
  induction m with
  | zero => intro a k v0 dfs lb dgs; simp [walkTys, rangeAnonDefs]
  | succ m' ih =>
      intro a k v0 dfs lb dgs
      rw [List.range'_succ, List.map_cons]
      simp only [walkTys]
      rw [walkTy_elided_step]
      simp only [List.getD, List.set]
      have hih := ih (a + 1) (k + 1) v0 (mapInsert dfs a (Region.LateBoundAnon 1 k)) lb dgs
      have harith : k + 1 + m' = k + (m' + 1) := by omega
      rw [harith] at hih
      simpa [rangeAnonDefs] using hih

theorem rangeAnonDefs_get :
    ∀ (m a k : Nat) (d : List (NodeId × Region)) (i : Nat),
      mapGet (rangeAnonDefs a m k d) i =
        if a ≤ i ∧ i < a + m then some (Region.LateBoundAnon 1 (k + (i - a)))
        else mapGet d i := by
  intro m
  induction m with
  | zero =>
      intro a k d i
      simp only [rangeAnonDefs]
      rw [if_neg (by omega)]
  | succ m' ih =>
      intro a k d i
      simp only [rangeAnonDefs]
      rw [ih (a + 1) (k + 1) (mapInsert d a (Region.LateBoundAnon 1 k)) i]
      by_cases h1 : a + 1 ≤ i ∧ i < a + 1 + m'
      · rw [if_pos h1, if_pos (by omega)]
        have harith : k + 1 + (i - (a + 1)) = k + (i - a) := by omega
        rw [harith]
      · rw [if_neg h1]
        by_cases h2 : i = a
        · subst h2
          rw [mapGet_mapInsert_self, if_pos (by omega)]
          simp
        · rw [mapGet_mapInsert_ne _ _ _ _ h2, if_neg (by omega)]

/-- Claim C6 (confirmed): for a foreign fn declaration the return type is
visited under an elision scope whose FreshLateAnon counter carries the
value the argument scope reached, so with n elided input lifetimes
(receiving indices 0..n-1) an elided lifetime in the return type receives
index n — the counter continues rather than restarting at 0 or selecting
a single exact lifetime. -/
theorem c6_theorem (env : HirEnv) (s : Scope) (n : Nat) :
    mapGet (visit_fn_like_elision env false [] FnLikeParent.ForeignItem s
        (elidedInputs n) (some (elidedRptr 0)) emptySt).defs 0
      = some (Region.LateBoundAnon 1 n)
    ∧ (∀ j, 1 ≤ j → j ≤ n →
        mapGet (visit_fn_like_elision env false [] FnLikeParent.ForeignItem s
          (elidedInputs n) (some (elidedRptr 0)) emptySt).defs j
          = some (Region.LateBoundAnon 1 (j - 1))) := by
  have hin := c6_inputs_walk env false [] s n 1 0 0 [] [] []
  simp only [Nat.zero_add] at hin
  have hrun : visit_fn_like_elision env false [] FnLikeParent.ForeignItem s
      (elidedInputs n) (some (elidedRptr 0)) emptySt
      = { defs := mapInsert (rangeAnonDefs 1 n 0 []) 0 (Region.LateBoundAnon 1 n),
          lateBound := [], diags := [], cells := [0, n, n + 1] } := by
    unfold visit_fn_like_elision
    rw [show elidedInputs n = (List.range' 1 n).map elidedRptr from rfl]
    simp only [emptySt, St.newCell, St.getCell, List.length_nil, List.length_cons,
               List.getD, List.get?, Option.getD, List.nil_append, List.cons_append,
               List.append_nil, Nat.zero_add]
    rw [hin]
    simp only [St.newCell, St.getCell, List.getD, List.get?, Option.getD,
               List.length_cons, List.cons_append, List.nil_append, List.append_nil,
               Nat.zero_add]
    rw [walkTy_elided_step]
    simp [List.getD, List.get?, List.set]
  refine ⟨?_, ?_⟩
  · rw [hrun]
    show mapGet (mapInsert (rangeAnonDefs 1 n 0 []) 0 (Region.LateBoundAnon 1 n)) 0
      = some (Region.LateBoundAnon 1 n)
    exact mapGet_mapInsert_self _ _ _
  · intro j h1 h2
    rw [hrun]
    show mapGet (mapInsert (rangeAnonDefs 1 n 0 []) 0 (Region.LateBoundAnon 1 n)) j
      = some (Region.LateBoundAnon 1 (j - 1))
    rw [mapGet_mapInsert_ne (rangeAnonDefs 1 n 0 []) 0 j (Region.LateBoundAnon 1 n)
          (Nat.one_le_iff_ne_zero.mp h1)]
    rw [rangeAnonDefs_get n 1 0 [] j]
    rw [if_pos (show 1 ≤ j ∧ j < 1 + n by omega)]
    have harith : 0 + (j - 1) = j - 1 := by omega
    rw [harith]

/-- Claim C6, witness: one elided input, index 0; the elided output gets
index 1. -/
theorem c6_witness :
    mapGet (visit_fn_like_elision exampleEnv false [] FnLikeParent.ForeignItem Scope.Root
        (elidedInputs 1) (some (elidedRptr 0)) emptySt).defs 0
      = some (Region.LateBoundAnon 1 1)
    ∧ mapGet (visit_fn_like_elision exampleEnv false [] FnLikeParent.ForeignItem Scope.Root
        (elidedInputs 1) (some (elidedRptr 0)) emptySt).defs 1
      = some (Region.LateBoundAnon 1 0) :=
  ⟨(c6_theorem exampleEnv Scope.Root 1).1,
   (c6_theorem exampleEnv Scope.Root 1).2 1 (by decide) (by decide)⟩

theorem elideLoop_count (defsMap : List (NodeId × Region)) (body : Option Nat) :
    ∀ (args : List (Nat × Ty)) (acc : List ElisionFailureInfo × Nat × Option Region),
      (elideLoop defsMap body args acc).2.1 =
        acc.2.1 +
          (args.map (fun p => (gatherTy defsMap 1 emptyGather p.2).lifetimes.length)).sum := by
  intro args
  induction args with
  | nil => intro acc; simp [elideLoop]
  | cons a rest ih =>
      intro acc
      obtain ⟨i, t⟩ := a
      obtain ⟨records, lc, possible⟩ := acc
      simp only [elideLoop]
      rw [ih]
      simp only [List.map_cons, List.sum_cons]
      omega

theorem elideLoop_records (defsMap : List (NodeId × Region)) (body : Option Nat) :
    ∀ (args : List (Nat × Ty)) (acc : List ElisionFailureInfo × Nat × Option Region),
      (elideLoop defsMap body args acc).1 =
        acc.1 ++ args.map (fun p =>
          { parent := body, index := p.1,
            lifetimeCount := (gatherTy defsMap 1 emptyGather p.2).lifetimes.length,
            haveBoundRegions := (gatherTy defsMap 1 emptyGather p.2).haveBoundRegions }) := by
  intro args
  induction args with
  | nil => intro acc; simp [elideLoop]
  | cons a rest ih =>
      intro acc
      obtain ⟨i, t⟩ := a
      obtain ⟨records, lc, possible⟩ := acc
      simp only [elideLoop]
      rw [ih]
      simp

theorem elideLoop_possible_frozen (defsMap : List (NodeId × Region)) (body : Option Nat) :
    ∀ (args : List (Nat × Ty)) (records : List ElisionFailureInfo) (lc : Nat)
      (possible : Option Region), 1 ≤ lc →
      (elideLoop defsMap body args (records, lc, possible)).2.1 = lc →
      (elideLoop defsMap body args (records, lc, possible)).2.2 = possible := by
  intro args
  induction args with
  | nil => intro records lc possible _ _; rfl
  | cons a rest ih =>
      intro records lc possible hlc hcount
      obtain ⟨i, t⟩ := a
      simp only [elideLoop] at hcount ⊢
      have hc := elideLoop_count defsMap body rest
        (records ++
          [{ parent := body, index := i,
             lifetimeCount := (gatherTy defsMap 1 emptyGather t).lifetimes.length,
             haveBoundRegions := (gatherTy defsMap 1 emptyGather t).haveBoundRegions }],
         lc + (gatherTy defsMap 1 emptyGather t).lifetimes.length,
         if lc + (gatherTy defsMap 1 emptyGather t).lifetimes.length = 1
            ∧ (gatherTy defsMap 1 emptyGather t).lifetimes.length = 1
         then (gatherTy defsMap 1 emptyGather t).lifetimes.head? else possible)
      rw [hcount] at hc
      simp at hc
      have hlen : (gatherTy defsMap 1 emptyGather t).lifetimes.length = 0 := by omega
      rw [hlen] at hcount ⊢
      have hcond : ¬(lc + 0 = 1 ∧ (0 : Nat) = 1) := by omega
      rw [if_neg hcond] at hcount ⊢
      have := ih _ (lc + 0) possible (by omega) hcount
      simpa using this

theorem elideLoop_possible (defsMap : List (NodeId × Region)) (body : Option Nat) :
    ∀ (args : List (Nat × Ty)) (records : List ElisionFailureInfo),
      (elideLoop defsMap body args (records, 0, none)).2.1 = 1 →
      ∃ p r, p ∈ args ∧ (gatherTy defsMap 1 emptyGather p.2).lifetimes = [r]
        ∧ (elideLoop defsMap body args (records, 0, none)).2.2 = some r := by
  intro args
  induction args with
  | nil => intro records h; simp [elideLoop] at h
  | cons a rest ih =>
      intro records hcount
      obtain ⟨i, t⟩ := a
      simp only [elideLoop] at hcount ⊢
      have hc := elideLoop_count defsMap body rest
        (records ++
          [{ parent := body, index := i,
             lifetimeCount := (gatherTy defsMap 1 emptyGather t).lifetimes.length,
             haveBoundRegions := (gatherTy defsMap 1 emptyGather t).haveBoundRegions }],
         0 + (gatherTy defsMap 1 emptyGather t).lifetimes.length,
         if 0 + (gatherTy defsMap 1 emptyGather t).lifetimes.length = 1
            ∧ (gatherTy defsMap 1 emptyGather t).lifetimes.length = 1
         then (gatherTy defsMap 1 emptyGather t).lifetimes.head? else none)
      rw [hcount] at hc
      simp at hc
      rcases Nat.lt_or_ge (gatherTy defsMap 1 emptyGather t).lifetimes.length 1 with hl | hl
      · -- this argument contributes no lifetime: the witness is in the rest
        have hlen : (gatherTy defsMap 1 emptyGather t).lifetimes.length = 0 := by omega
        rw [hlen] at hcount ⊢
        have hcond : ¬((0 : Nat) + 0 = 1 ∧ (0 : Nat) = 1) := by omega
        rw [if_neg hcond] at hcount ⊢
        have hres := ih _ (by simpa using hcount)
        rcases hres with ⟨p, r, hp, hgl, hposs⟩
        exact ⟨p, r, List.mem_cons_of_mem _ hp, hgl, by simpa using hposs⟩
      · rcases Nat.lt_or_ge 1 (gatherTy defsMap 1 emptyGather t).lifetimes.length with hl2 | hl2
        · -- at least two lifetimes in this argument: the total cannot be 1
          exfalso
          omega
        · -- exactly one lifetime in this argument: it is the implied region
          have hlen : (gatherTy defsMap 1 emptyGather t).lifetimes.length = 1 := by omega
          rcases List.length_eq_one.mp hlen with ⟨r, hr⟩
          have hcond : (0 + (gatherTy defsMap 1 emptyGather t).lifetimes.length = 1
              ∧ (gatherTy defsMap 1 emptyGather t).lifetimes.length = 1) := by omega
          rw [if_pos hcond] at hcount ⊢
          have hfrozen := elideLoop_possible_frozen defsMap body rest
            (records ++
              [{ parent := body, index := i,
                 lifetimeCount := (gatherTy defsMap 1 emptyGather t).lifetimes.length,
                 haveBoundRegions := (gatherTy defsMap 1 emptyGather t).haveBoundRegions }])
            (0 + (gatherTy defsMap 1 emptyGather t).lifetimes.length)
            ((gatherTy defsMap 1 emptyGather t).lifetimes.head?) (by omega)
            (by rw [hcount]; omega)
          refine ⟨(i, t), r, List.mem_cons_self _ _, hr, ?_⟩
          rw [hfrozen, hr]
          rfl

/-- Claim C4 (corrected): the output elision policy of
visit_fn_like_elision is count-based, not union-based: it is
Exact(that-lifetime) iff the SUM over the (non-self) arguments of the
number of distinct non-higher-ranked lifetimes of each argument is
exactly 1 (so one argument contributes a singleton set and every other
argument contributes none), and Error with one failure record per
argument otherwise. -/
theorem c4_theorem (defsMap : List (NodeId × Region)) (body : Option Nat) (hasSelf : Bool)
    (inputs : List Ty) :
    (((inputs.enum.drop (if hasSelf then 1 else 0)).map
        (fun p => (gatherTy defsMap 1 emptyGather p.2).lifetimes.length)).sum = 1 →
      ∃ p r, p ∈ inputs.enum.drop (if hasSelf then 1 else 0)
        ∧ (gatherTy defsMap 1 emptyGather p.2).lifetimes = [r]
        ∧ fnElideCompute defsMap body hasSelf inputs = Elide.Exact r)
    ∧ (((inputs.enum.drop (if hasSelf then 1 else 0)).map
        (fun p => (gatherTy defsMap 1 emptyGather p.2).lifetimes.length)).sum ≠ 1 →
      fnElideCompute defsMap body hasSelf inputs =
        Elide.Error ((inputs.enum.drop (if hasSelf then 1 else 0)).map (fun p =>
          { parent := body, index := p.1,
            lifetimeCount := (gatherTy defsMap 1 emptyGather p.2).lifetimes.length,
            haveBoundRegions := (gatherTy defsMap 1 emptyGather p.2).haveBoundRegions }))) := by
  have hc := elideLoop_count defsMap body (inputs.enum.drop (if hasSelf then 1 else 0))
    ([], 0, none)
  simp at hc
  constructor
  · intro hsum
    have h1 : (elideLoop defsMap body (inputs.enum.drop (if hasSelf then 1 else 0))
        ([], 0, none)).2.1 = 1 := by rw [hc]; simpa using hsum
    rcases elideLoop_possible defsMap body _ [] h1 with ⟨p, r, hp, hgl, hposs⟩
    refine ⟨p, r, hp, hgl, ?_⟩
    unfold fnElideCompute
    rw [if_pos h1, hposs]
    rfl
  · intro hsum
    have h1 : (elideLoop defsMap body (inputs.enum.drop (if hasSelf then 1 else 0))
        ([], 0, none)).2.1 ≠ 1 := by rw [hc]; simpa using hsum
    unfold fnElideCompute
    rw [if_neg h1, elideLoop_records]
    simp

/-- Claim C4, witness for the amended theorem: with the same named
lifetime in two arguments the per-argument counts are 1 and 1, the sum is
2, and the policy is Error with one record per argument. -/
theorem c4_witness :
    fnElideCompute [(1, Region.LateBound 1 10), (2, Region.LateBound 1 10)] (some 99) false
        [Ty.Rptr { id := 1, name := 2 } Ty.Prim, Ty.Rptr { id := 2, name := 2 } Ty.Prim]
      = Elide.Error
          [{ parent := some 99, index := 0, lifetimeCount := 1, haveBoundRegions := false },
           { parent := some 99, index := 1, lifetimeCount := 1, haveBoundRegions := false }] := by
  have h := (c4_theorem [(1, Region.LateBound 1 10), (2, Region.LateBound 1 10)] (some 99) false
    [Ty.Rptr { id := 1, name := 2 } Ty.Prim, Ty.Rptr { id := 2, name := 2 } Ty.Prim]).2
    (by decide)
  exact h.trans (by decide)

/-- Claim C4, counterexample to the claim as stated: for
fn f<'a>(x: &'a u8, y: &'a u8) -> &u8 the union over the arguments of
their non-higher-ranked lifetimes is the single region LateBound 1 10 and
no higher-ranked regions obscure the view, yet the full pipeline run of
the pass selects the Error policy: the elided output lifetime (node 3)
gets no defs entry and E0106 is emitted with a record per argument,
instead of resolving to the union's one lifetime. -/
theorem c4_counterexample :
    specInputLifetimeUnion c4Run.defs false c4Decl.inputs = [Region.LateBound 1 10]
    ∧ specInputsHaveBoundRegions c4Run.defs false c4Decl.inputs = false
    ∧ mapGet c4Run.defs 3 = none
    ∧ c4Run.diags = [Diag.E0106 3 false (some
        [{ parent := some 99, index := 0, lifetimeCount := 1, haveBoundRegions := false },
         { parent := some 99, index := 1, lifetimeCount := 1, haveBoundRegions := false }])] := by
  decide
